import Mathlib

/-!
# Pooled dispatcher (`GoProject_Nethttp/main.go`)

A shallow embedding of the connection pool and of the two control handlers
(`/connect`, `/send`) of `GoProject_Nethttp/main.go`.

Conventions of the embedding:

* a `net.Conn` value is an object identity (`Conn.id`); a successful `net.Dial`
  allocates a fresh identity, so two dials never return the same object;
* Go `int` is `Int`; the one addition of the pool (`lastUsed + 1`) is wrapped
  to 64 bits by `wrapInt64`, and `%` is Go's truncated remainder (`Int.tmod`);
* a Go function either returns or panics (`GoResult`);
* the outside world (dial outcomes, socket I/O, the clock) is an explicit
  oracle argument, and every effect the handlers have on it (dials, `Close`
  calls, registry writes) is recorded in `World`;
* the goroutines of `/send` are run as an explicit schedule of events, one
  event being one critical section (`getNextConnection`) or one completion
  (`sendSingleRequest` followed by the write of the result).
-/

namespace Nethttp

/-! ## Go runtime -/

/-- A `net.Conn` object, identified by its allocation number. -/
structure Conn where
  id : Nat
deriving DecidableEq, Repr

/-- The run-time panics the pool code can raise: the remainder by zero and
the index out of range in `getNextConnection`, and `makeslice: cap out of
range` in the allocation of `/connect`. -/
inductive RuntimePanic where
  | integerDivideByZero
  | indexOutOfRange (index : Int) (len : Nat)
  | makesliceCapOutOfRange
deriving DecidableEq, Repr

/-- Outcome of a Go call: a normal return or a panic. -/
inductive GoResult (α : Type) where
  | ret (a : α)
  | panic (p : RuntimePanic)
deriving DecidableEq, Repr

/-- Two's-complement wrap of a mathematical integer to Go's 64-bit `int`. -/
def wrapInt64 (x : Int) : Int :=
  (x + 2 ^ 63) % 2 ^ 64 - 2 ^ 63

/-! ## The pool -/

/-- The struct `HostConnections` (main.go:18-22); the mutex carries no data. -/
structure HostConnections where
  Connections : List Conn
  lastUsed : Int
deriving DecidableEq, Repr

/-- The method `getNextConnection` (main.go:54-60): the pool after the call and what the
call yields.  `% len` panics on an empty pool before the cursor is stored;
the index expression panics after it when the new cursor is no valid index. -/
def getNextConnection (hc : HostConnections) : HostConnections × GoResult Conn :=
  if hc.Connections.length = 0 then
    (hc, GoResult.panic RuntimePanic.integerDivideByZero)
  else
    let next := Int.tmod (wrapInt64 (hc.lastUsed + 1)) (hc.Connections.length : Int)
    let hc1 : HostConnections := { hc with lastUsed := next }
    if next < 0 then
      (hc1, GoResult.panic (RuntimePanic.indexOutOfRange next hc1.Connections.length))
    else
      match hc1.Connections[next.toNat]? with
      | some c => (hc1, GoResult.ret c)
      | none => (hc1, GoResult.panic (RuntimePanic.indexOutOfRange next hc1.Connections.length))

/-- The pool and the connections returned by `k` consecutive
`getNextConnection` calls; a panic ends the run. -/
def selectMany : Nat → HostConnections → HostConnections × List Conn
  | 0, hc => (hc, [])
  | k + 1, hc =>
    match getNextConnection hc with
    | (hc1, GoResult.ret c) =>
      let r := selectMany k hc1
      (r.1, c :: r.2)
    | (hc1, GoResult.panic _) => (hc1, [])

/-- The cursor values stored by `k` consecutive `getNextConnection` calls. -/
def selectSlots : Nat → HostConnections → List Int
  | 0, _ => []
  | k + 1, hc =>
    match getNextConnection hc with
    | (hc1, GoResult.ret _) => hc1.lastUsed :: selectSlots k hc1
    | (_, GoResult.panic _) => []

/-- A pool as the claims take it: at least one connection, at most as many as
a Go slice can hold, and a cursor that is an index of the slice. -/
def ValidPool (hc : HostConnections) : Prop :=
  0 < hc.Connections.length ∧ (hc.Connections.length : Int) < 2 ^ 63 ∧
    0 ≤ hc.lastUsed ∧ hc.lastUsed < hc.Connections.length

instance (hc : HostConnections) : Decidable (ValidPool hc) := by
  unfold ValidPool; infer_instance

/-! ## Library functions the handlers call -/

/-- The library function `strings.Contains`. -/
def stringsContains (s substr : String) : Bool :=
  s.data.tails.any (fun t => substr.data.isPrefixOf t)

/-- The fields of `url.URL` the programs read. -/
structure URL where
  Scheme : String
  Host : String
  Path : String
  RawQuery : String
deriving DecidableEq, Repr

/-- The function `validOptionalPort` of Go's `net/url`: empty, or a colon followed by
decimal digits only. -/
def validOptionalPort : List Char → Bool
  | [] => true
  | c :: rest => c == ':' && rest.all (fun b => decide ('0' ≤ b ∧ b ≤ '9'))

/-- The suffix of `l` that starts at its last colon (`host[colon:]` for
`colon = strings.LastIndexByte(host, ':')`), `none` when there is no colon. -/
def fromLastColon : List Char → Option (List Char)
  | [] => none
  | c :: rest =>
    match fromLastColon rest with
    | some t => some t
    | none => if c = ':' then some (c :: rest) else none

/-- The method `(*URL).Port` of Go's `net/url`: the text after the last colon of `Host`
when that text is all digits, the empty string otherwise. -/
def URL.Port (u : URL) : String :=
  match fromLastColon u.Host.data with
  | some t => if validOptionalPort t then String.mk t.tail else ""
  | none => ""

/-- The method `(*URL).Hostname` of Go's `net/url`: `Host` without the port
that `Port` recognises and without the square brackets of an IPv6 literal. -/
def URL.Hostname (u : URL) : String :=
  let host :=
    match fromLastColon u.Host.data with
    | some t =>
      if validOptionalPort t then u.Host.data.take (u.Host.data.length - t.length)
      else u.Host.data
    | none => u.Host.data
  if host.head? = some '[' ∧ host.getLast? = some ']' then String.mk (host.drop 1).dropLast
  else String.mk host

/-- What the Go library and runtime decide for the handlers: `url.Parse`,
the outcome of each `net.Dial` call (by its number among all dials of the
process, and its address; `none` is success, `some e` the error text), and the
order in which a `range` statement visits the entries of a map. -/
structure Lib where
  urlParse : String → Except String URL
  dialError : Nat → String → Option String
  mapRange : List (String × String) → List (String × String)

/-! ## Process state -/

/-- The global `connections` map together with the log of what the process
did to the network: every `net.Dial` call (its address), every `Close` call
and every `Write` call, oldest first. -/
structure World where
  connections : String → Option HostConnections
  dialed : List String
  closed : List Conn
  written : List (Conn × String)

/-- The call `net.Dial("tcp", address)`: a successful dial hands out a new connection
object. -/
def netDial (lib : Lib) (w : World) (address : String) : World × Except String Conn :=
  let w1 : World := { w with dialed := w.dialed ++ [address] }
  match lib.dialError w.dialed.length address with
  | some e => (w1, Except.error e)
  | none => (w1, Except.ok ⟨w.dialed.length⟩)

/-- The loop `for _, c := range conns { c.Close() }`. -/
def closeAll (w : World) (conns : List Conn) : World :=
  { w with closed := w.closed ++ conns }

/-! ## Requests and replies -/

/-- The struct `ConnectRequest` (main.go:31-34). -/
structure ConnectRequest where
  TargetURL : String
  Count : Int
deriving DecidableEq, Repr

/-- The struct `SendRequest` (main.go:37-43); `β` is the type of the decoded `body`
value, `Headers` lists the entries of the map. -/
structure SendRequest (β : Type) where
  TargetURL : String
  Method : String
  Headers : List (String × String)
  Body : β
  Concurrent : Int

/-- The struct `SendResponse` (main.go:46-51). -/
structure SendResponse where
  StatusCode : Int
  Headers : List (String × List String)
  Body : String
  TimeTaken : String
deriving DecidableEq, Repr

/-- An inbound control request: its method and what
`json.NewDecoder(r.Body).Decode(&req)` yields. -/
structure Request (α : Type) where
  Method : String
  decoded : Except String α

/-- What a handler writes to its `http.ResponseWriter`. -/
inductive Reply where
  | text (code : Nat) (body : String)
  | connected (message : String) (status : String) (count : Int)
  | sent (responses : List (Option SendResponse)) (count : Int)
deriving DecidableEq, Repr

/-- The call `http.Error(w, msg, code)`: the status code and the message followed by a
newline. -/
def httpError (msg : String) (code : Nat) : Reply :=
  Reply.text code (msg ++ "\n")

/-! ## `/connect` -/

/-- The registry key of `/connect` (main.go:91-98). -/
def connectHost (parsedURL : URL) : String :=
  if !stringsContains parsedURL.Host ":" then
    if parsedURL.Scheme = "https" then parsedURL.Host ++ ":443" else parsedURL.Host ++ ":80"
  else parsedURL.Host

/-- The dial loop of `/connect` (main.go:105-116) with `remaining` iterations
to go, loop variable `i` and `conns` the connections appended so far.  A
failed dial closes `conns` and returns the error reply. -/
def dialLoop (lib : Lib) (host : String) :
    Nat → Int → World → List Conn → World × Except Reply (List Conn)
  | 0, _, w, conns => (w, Except.ok conns)
  | remaining + 1, i, w, conns =>
    match netDial lib w host with
    | (w1, Except.error err) =>
      (closeAll w1 conns,
        Except.error (httpError ("创建第" ++ toString (i + 1) ++ "个连接失败: " ++ err) 500))
    | (w1, Except.ok conn) => dialLoop lib host remaining (i + 1) w1 (conns ++ [conn])

/-- The store of the new pool (main.go:119-127): an existing pool for `host`
has its connections closed, then the entry is overwritten. -/
def storePool (w : World) (host : String) (hostConns : HostConnections) : World :=
  let w1 :=
    match w.connections host with
    | some existing => closeAll w existing.Connections
    | none => w
  { w1 with connections := Function.update w1.connections host (some hostConns) }

/-- The default of `/connect` for the number of connections (main.go:81-83). -/
def normalizeCount (count : Int) : Int :=
  if count ≤ 0 then 1 else count

/-- The largest capacity `make([]net.Conn, 0, cap)` accepts: `makeslice`
panics when the capacity times the element size (16 bytes for the interface
value `net.Conn` on a 64-bit platform) exceeds the 2^48 bytes the runtime can
address.  Memory exhaustion below that bound is not modelled. -/
def maxConnCap : Int :=
  2 ^ 44

/-- The handler `TCPConnectionHandler` (main.go:63-137): the process state
after the call and its reply, or the panic that ends the call without a
reply.  The allocation `make([]net.Conn, 0, req.Count)` of main.go:101-103
panics for a count above `maxConnCap`, before any dial.  The loop
`for i := 0; i < req.Count; i++` makes `req.Count` iterations unless it
returns early. -/
def TCPConnectionHandler (lib : Lib) (w : World) (r : Request ConnectRequest) :
    World × GoResult Reply :=
  if r.Method ≠ "POST" then (w, GoResult.ret (httpError "只允许POST方法" 405))
  else
    match r.decoded with
    | Except.error e => (w, GoResult.ret (httpError ("解析JSON请求失败: " ++ e) 400))
    | Except.ok req =>
      if req.TargetURL = "" then (w, GoResult.ret (httpError "targetUrl不能为空" 400))
      else
        let count : Int := normalizeCount req.Count
        match lib.urlParse req.TargetURL with
        | Except.error _ => (w, GoResult.ret (httpError "URL格式无效" 400))
        | Except.ok parsedURL =>
          let host := connectHost parsedURL
          if count > maxConnCap then (w, GoResult.panic RuntimePanic.makesliceCapOutOfRange)
          else
            match dialLoop lib host count.toNat 0 w [] with
            | (w1, Except.error reply) => (w1, GoResult.ret reply)
            | (w1, Except.ok conns) =>
              (storePool w1 host { Connections := conns, lastUsed := 0 },
                GoResult.ret (Reply.connected
                  ("已建立 " ++ toString count ++ " 个TCP连接到 " ++ host) "success" count))

/-! ## `/send` -/

/-- What the socket and the clock do for one `sendSingleRequest` call: the
error of `conn.Write` if any, what `http.ReadResponse` yields (status code and
headers), what `io.ReadAll(response.Body)` yields, and the text of
`time.Since(startTime)`. -/
structure Exchange where
  writeError : Option String
  response : Except String (Int × List (String × List String))
  body : Except String String
  elapsed : String

/-- The function `sendSingleRequest` (main.go:140-165) on the exchange the connection
performs for it. -/
def sendSingleRequest (x : Exchange) : Except String SendResponse :=
  match x.writeError with
  | some err => Except.error ("发送请求失败: " ++ err)
  | none =>
    match x.response with
    | Except.error err => Except.error ("读取响应失败: " ++ err)
    | Except.ok response =>
      match x.body with
      | Except.error err => Except.error ("读取响应体失败: " ++ err)
      | Except.ok responseBody =>
        Except.ok
          { StatusCode := response.1, Headers := response.2, Body := responseBody,
            TimeTaken := x.elapsed }

/-- The registry key of `/send` (main.go:192-200). -/
def sendHost (parsedURL : URL) : String :=
  if !stringsContains parsedURL.Host ":" then
    if parsedURL.Scheme = "https" then parsedURL.Host ++ ":443"
    else parsedURL.Host ++ ":" ++ parsedURL.Port
  else parsedURL.Host

/-- The raw request text of `/send` (main.go:217-232); `headers` are the
entries of `req.Headers` in the order the `range` statement visits them. -/
def buildRequest (method : String) (parsedURL : URL) (headers : List (String × String))
    (bodyBytes : String) : String :=
  let method := if method = "" then "POST" else method
  let httpRequest := method ++ " " ++ parsedURL.Path ++ " HTTP/1.1\r\n"
  let httpRequest := httpRequest ++ ("Host: " ++ parsedURL.Host ++ "\r\n")
  let httpRequest := httpRequest ++ "Content-Type: application/json\r\n"
  let httpRequest :=
    httpRequest ++ ("Content-Length: " ++ toString bodyBytes.utf8ByteSize ++ "\r\n")
  let httpRequest :=
    headers.foldl (fun acc kv => acc ++ (kv.1 ++ ": " ++ kv.2 ++ "\r\n")) httpRequest
  httpRequest ++ "\r\n" ++ bodyBytes

/-- The number of tasks `/send` launches (main.go:235-241) for the requested
`concurrent` and a pool of `n` connections. -/
def clampConcurrent (concurrent : Int) (n : Nat) : Int :=
  let concurrent := if concurrent ≤ 0 then 1 else concurrent
  if concurrent > (n : Int) then (n : Int) else concurrent

/-- One scheduling step of the goroutines of `/send`: task `i` passes its
critical section (`getNextConnection`), or task `i` completes
(`sendSingleRequest`, the write of its result, `wg.Done`). -/
inductive Event where
  | select (i : Nat)
  | finish (i : Nat)
deriving DecidableEq, Repr

/-- The state shared by the goroutines of one `/send` call (main.go:244-260):
the pool, the `responses` slice, the content of `errChan`, the wait-group
counter, the `Write` calls made, and per task the connection it selected and
whether it has completed.  `crashed` holds the panic of a goroutine, which
ends the process. -/
structure Dispatch where
  hc : HostConnections
  responses : List (Option SendResponse)
  errChan : List String
  wg : Nat
  written : List (Conn × String)
  selected : Nat → Option Conn
  finished : Nat → Bool
  crashed : Option RuntimePanic

/-- The state after the launch loop: `concurrent` tasks, none of which has
run. -/
def Dispatch.init (hc : HostConnections) (concurrent : Nat) : Dispatch :=
  { hc := hc, responses := List.replicate concurrent none, errChan := [], wg := concurrent,
    written := [], selected := fun _ => none, finished := fun _ => false, crashed := none }

/-- The effect of one event.  An event that no goroutine can perform in the
state (a task that does not exist, a second selection, a completion before the
selection or after the completion, anything after a crash) changes nothing. -/
def Dispatch.step (io : Nat → Conn → String → Exchange) (httpRequest : String)
    (concurrent : Nat) (d : Dispatch) : Event → Dispatch
  | Event.select i =>
    if d.crashed.isSome || decide (concurrent ≤ i) || (d.selected i).isSome then d
    else
      match getNextConnection d.hc with
      | (hc1, GoResult.ret conn) =>
        { d with hc := hc1, selected := Function.update d.selected i (some conn) }
      | (hc1, GoResult.panic p) => { d with hc := hc1, crashed := some p }
  | Event.finish i =>
    if d.crashed.isSome || d.finished i then d
    else
      match d.selected i with
      | none => d
      | some conn =>
        let d1 : Dispatch :=
          { d with written := d.written ++ [(conn, httpRequest)],
                   finished := Function.update d.finished i true,
                   wg := d.wg - 1 }
        match sendSingleRequest (io i conn httpRequest) with
        | Except.error err => { d1 with errChan := d1.errChan ++ [err] }
        | Except.ok resp => { d1 with responses := d1.responses.set i (some resp) }

/-- The shared state after a schedule of events. -/
def Dispatch.run (io : Nat → Conn → String → Exchange) (httpRequest : String)
    (concurrent : Nat) (d : Dispatch) (sched : List Event) : Dispatch :=
  sched.foldl (Dispatch.step io httpRequest concurrent) d

/-- How a `/send` call stands after a schedule: it has replied, it is still
blocked in `wg.Wait()`, or a goroutine has panicked. -/
inductive Outcome where
  | replied (r : Reply)
  | waiting
  | crashed (p : RuntimePanic)
deriving DecidableEq, Repr

/-- What the handler does once `wg.Wait()` lets it (main.go:262-281). -/
def Dispatch.outcome (d : Dispatch) (concurrent : Int) : Outcome :=
  match d.crashed with
  | some p => Outcome.crashed p
  | none =>
    if d.wg ≠ 0 then Outcome.waiting
    else if d.errChan.length > 0 then
      Outcome.replied (httpError ("部分请求失败: " ++ "; ".intercalate d.errChan) 500)
    else Outcome.replied (Reply.sent d.responses concurrent)

/-- The handler `HTTPRequestHandler` (main.go:168-281) under the schedule `sched` of its
goroutines; `marshal` is `json.Marshal` on the decoded body. -/
def HTTPRequestHandler {β : Type} (lib : Lib) (io : Nat → Conn → String → Exchange)
    (marshal : β → Except String String) (w : World) (r : Request (SendRequest β))
    (sched : List Event) : World × Outcome :=
  if r.Method ≠ "POST" then (w, Outcome.replied (httpError "只允许POST方法" 405))
  else
    match r.decoded with
    | Except.error e => (w, Outcome.replied (httpError ("解析JSON请求失败: " ++ e) 400))
    | Except.ok req =>
      if req.TargetURL = "" then (w, Outcome.replied (httpError "targetUrl不能为空" 400))
      else
        match lib.urlParse req.TargetURL with
        | Except.error _ => (w, Outcome.replied (httpError "URL格式无效" 400))
        | Except.ok parsedURL =>
          let host := sendHost parsedURL
          match w.connections host with
          | none => (w, Outcome.replied (httpError "未找到已建立的连接" 400))
          | some hostConns =>
            if hostConns.Connections.length = 0 then
              (w, Outcome.replied (httpError "未找到已建立的连接" 400))
            else
              match marshal req.Body with
              | Except.error e =>
                (w, Outcome.replied (httpError ("序列化请求体失败: " ++ e) 400))
              | Except.ok bodyBytes =>
                let httpRequest :=
                  buildRequest req.Method parsedURL (lib.mapRange req.Headers) bodyBytes
                let concurrent := clampConcurrent req.Concurrent hostConns.Connections.length
                let d :=
                  Dispatch.run io httpRequest concurrent.toNat
                    (Dispatch.init hostConns concurrent.toNat) sched
                ({ w with
                    connections := Function.update w.connections host (some d.hc),
                    written := w.written ++ d.written },
                  d.outcome concurrent)

/-! ## Vocabulary of the statements -/

/-- The slot `getNextConnection` reaches on its `j`-th call (from 0) on a pool
of `n` connections whose cursor was `c`. -/
def slotAfter (c : Int) (n j : Nat) : Nat :=
  ((c + 1 + (j : Int)) % (n : Int)).toNat

/-- The error text of task `i`, if it has selected a connection on which its
exchange fails. -/
def taskError (io : Nat → Conn → String → Exchange) (httpRequest : String)
    (selected : Nat → Option Conn) (i : Nat) : Option String :=
  match selected i with
  | none => none
  | some conn =>
    match sendSingleRequest (io i conn httpRequest) with
    | Except.error err => some err
    | Except.ok _ => none

/-- The response of task `i`, if it has selected a connection on which its
exchange succeeds. -/
def taskResponse (io : Nat → Conn → String → Exchange) (httpRequest : String)
    (selected : Nat → Option Conn) (i : Nat) : Option SendResponse :=
  match selected i with
  | none => none
  | some conn =>
    match sendSingleRequest (io i conn httpRequest) with
    | Except.error _ => none
    | Except.ok resp => some resp

/-- The schedule in which each of the `concurrent` tasks selects and then each
completes, in index order. -/
def fairSchedule (concurrent : Nat) : List Event :=
  (List.range concurrent).map Event.select ++ (List.range concurrent).map Event.finish

/-- The invariant of a dispatch of `k` tasks started on the pool `hc0`:
`order` lists the tasks that have selected, in the order of their critical
sections, `done` the tasks that have completed, in the order of completion. -/
structure DispatchInv (io : Nat → Conn → String → Exchange) (httpRequest : String)
    (hc0 : HostConnections) (k : Nat) (d : Dispatch) (order done : List Nat) : Prop where
  crashed_none : d.crashed = none
  hc_eq : d.hc =
    { hc0 with lastUsed := (hc0.lastUsed + (order.length : Int)) % (hc0.Connections.length : Int) }
  order_nodup : order.Nodup
  order_lt : ∀ i ∈ order, i < k
  sel_order : ∀ j i, order[j]? = some i →
    d.selected i = hc0.Connections[slotAfter hc0.lastUsed hc0.Connections.length j]?
  sel_none : ∀ i, i ∉ order → d.selected i = none
  done_nodup : done.Nodup
  done_sub : ∀ i ∈ done, i ∈ order
  fin_iff : ∀ i, d.finished i = true ↔ i ∈ done
  wg_eq : d.wg + done.length = k
  resp_len : d.responses.length = k
  resp_eq : ∀ i, i < k →
    d.responses[i]? = some (if i ∈ done then taskResponse io httpRequest d.selected i else none)
  err_eq : d.errChan = done.filterMap (taskError io httpRequest d.selected)
  written_eq : d.written = done.filterMap (fun i => (d.selected i).map (fun c => (c, httpRequest)))

/-- The request passes every check of `HTTPRequestHandler` that precedes the
dispatch: `req` is its decoded body, `parsedURL` its parsed target,
`hostConns` the non-empty pool registered for it and `bodyBytes` its
serialised body. -/
def ReachesDispatch {β : Type} (lib : Lib) (marshal : β → Except String String) (w : World)
    (r : Request (SendRequest β)) (req : SendRequest β) (parsedURL : URL)
    (hostConns : HostConnections) (bodyBytes : String) : Prop :=
  r.Method = "POST" ∧ r.decoded = Except.ok req ∧ req.TargetURL ≠ "" ∧
    lib.urlParse req.TargetURL = Except.ok parsedURL ∧
    w.connections (sendHost parsedURL) = some hostConns ∧
    hostConns.Connections.length ≠ 0 ∧ marshal req.Body = Except.ok bodyBytes

/-- The state shared by the goroutines of a `/send` call that has reached the
dispatch, after the schedule `sched`. -/
def sendDispatch {β : Type} (lib : Lib) (io : Nat → Conn → String → Exchange)
    (req : SendRequest β) (parsedURL : URL) (hostConns : HostConnections) (bodyBytes : String)
    (sched : List Event) : Dispatch :=
  Dispatch.run io (buildRequest req.Method parsedURL (lib.mapRange req.Headers) bodyBytes)
    (clampConcurrent req.Concurrent hostConns.Connections.length).toNat
    (Dispatch.init hostConns (clampConcurrent req.Concurrent hostConns.Connections.length).toNat)
    sched

/-- The call of `TCPConnectionHandler` gets to its dial loop: the request
passes every check that precedes it (`req` is its decoded body and
`parsedURL` its parsed target) and the slice of main.go:101-103 is allocated,
that is, the normalized count is at most `maxConnCap`. -/
def ReachesDial (lib : Lib) (r : Request ConnectRequest) (req : ConnectRequest)
    (parsedURL : URL) : Prop :=
  r.Method = "POST" ∧ r.decoded = Except.ok req ∧ req.TargetURL ≠ "" ∧
    lib.urlParse req.TargetURL = Except.ok parsedURL ∧
    normalizeCount req.Count ≤ maxConnCap

/-- The connection objects handed out by `m` successful dials that follow the
dials recorded in `w`. -/
def freshConns (w : World) (m : Nat) : List Conn :=
  (List.range m).map (fun j => Conn.mk (w.dialed.length + j))

/-! ## Sample inputs -/

/-- A library in which every URL parses to `http://127.0.0.1:9999/echo`, the
third dial of the process is refused and every other dial succeeds. -/
def libThirdDialRefused : Lib :=
  { urlParse := fun _ => Except.ok ⟨"http", "127.0.0.1:9999", "/echo", ""⟩,
    dialError := fun n _ => if n = 2 then some "connection refused" else none,
    mapRange := fun l => l }

/-- A library in which every URL parses to `http://127.0.0.1:9999/echo` and
every dial succeeds. -/
def libAllDialsOk : Lib :=
  { urlParse := fun _ => Except.ok ⟨"http", "127.0.0.1:9999", "/echo", ""⟩,
    dialError := fun _ _ => none,
    mapRange := fun l => l }

/-- A process that has not dialled yet and whose registry is empty. -/
def freshWorld : World :=
  { connections := fun _ => none, dialed := [], closed := [], written := [] }

/-- A process that dialled twice and holds those two connections as the pool
of `127.0.0.1:9999`. -/
def worldWithPool : World :=
  { connections := fun h =>
      if h = "127.0.0.1:9999" then some { Connections := [⟨0⟩, ⟨1⟩], lastUsed := 0 } else none,
    dialed := ["127.0.0.1:9999", "127.0.0.1:9999"], closed := [], written := [] }

/-- The request `POST /connect {"targetUrl":"http://127.0.0.1:9999","count":3}`. -/
def connectThree : Request ConnectRequest :=
  { Method := "POST", decoded := Except.ok ⟨"http://127.0.0.1:9999", 3⟩ }

/-- Sockets that answer every request with status 200 and a body that names
the task and the connection. -/
def ioEcho : Nat → Conn → String → Exchange := fun i c _ =>
  { writeError := none, response := Except.ok (200, []),
    body := Except.ok ("task " ++ toString i ++ " on connection " ++ toString c.id),
    elapsed := "1ms" }

/-- Sockets on which the write of task 1 fails and every other exchange is
answered as by `ioEcho`. -/
def ioTaskOneFails : Nat → Conn → String → Exchange := fun i c _ =>
  { writeError := if i = 1 then some "broken pipe" else none,
    response := Except.ok (200, []),
    body := Except.ok ("task " ++ toString i ++ " on connection " ++ toString c.id),
    elapsed := "1ms" }

/-- The request `POST /send` for `http://127.0.0.1:9999/echo` with an empty
JSON object as body and `concurrent = 2`; the decoded body is kept as its
JSON text. -/
def sendTwo : Request (SendRequest String) :=
  { Method := "POST",
    decoded := Except.ok
      { TargetURL := "http://127.0.0.1:9999/echo", Method := "POST", Headers := [],
        Body := "{}", Concurrent := 2 } }

/-- A schedule in which task 1 selects and completes before task 0. -/
def scheduleOneFirst : List Event :=
  [Event.select 1, Event.finish 1, Event.select 0, Event.finish 0]

/-- A library in which every URL parses to `http://127.0.0.1/echo` (no
explicit port) and every dial succeeds. -/
def libNoPort : Lib :=
  { urlParse := fun _ => Except.ok ⟨"http", "127.0.0.1", "/echo", ""⟩,
    dialError := fun _ _ => none,
    mapRange := fun l => l }

/-- The request `POST /connect {"targetUrl":"http://127.0.0.1/echo","count":1}`. -/
def connectNoPort : Request ConnectRequest :=
  { Method := "POST", decoded := Except.ok ⟨"http://127.0.0.1/echo", 1⟩ }

/-- The request `POST /send` for `http://127.0.0.1/echo` with an empty JSON
object as body and `concurrent = 1`. -/
def sendNoPort : Request (SendRequest String) :=
  { Method := "POST",
    decoded := Except.ok
      { TargetURL := "http://127.0.0.1/echo", Method := "POST", Headers := [],
        Body := "{}", Concurrent := 1 } }

/-! ## Vocabulary of the request text -/

/-- The line `/send` appends for one entry of the header map. -/
def headerLine (kv : String × String) : String :=
  kv.1 ++ ": " ++ kv.2 ++ "\r\n"

/-- The part of the request text of `/send` that precedes the lines of the
header map: the request line and the `Host`, `Content-Type` and
`Content-Length` lines. -/
def requestHead (method : String) (parsedURL : URL) (bodyBytes : String) : String :=
  (if method = "" then "POST" else method) ++ " " ++ parsedURL.Path ++ " HTTP/1.1\r\n" ++
    "Host: " ++ parsedURL.Host ++ "\r\n" ++
    "Content-Type: application/json\r\n" ++
    "Content-Length: " ++ toString bodyBytes.utf8ByteSize ++ "\r\n"

/-- The request text as the specification words it (`BuildRequest`): the
request line `METHOD path?query HTTP/1.1`, a `Host` header, a `Content-Length`
header computed from the byte length of the body, the caller-supplied headers,
a blank line, the body. -/
def specBuildRequest (method host path query : String) (headers : List (String × String))
    (body : String) : String :=
  method ++ " " ++ path ++ "?" ++ query ++ " HTTP/1.1\r\n" ++
    "Host: " ++ host ++ "\r\n" ++
    "Content-Length: " ++ toString body.utf8ByteSize ++ "\r\n" ++
    String.join (headers.map headerLine) ++ "\r\n" ++ body

/-- A library in which every URL parses to `http://127.0.0.1:9999/echo?x=1`
and every dial succeeds. -/
def libWithQuery : Lib :=
  { urlParse := fun _ => Except.ok ⟨"http", "127.0.0.1:9999", "/echo", "x=1"⟩,
    dialError := fun _ _ => none,
    mapRange := fun l => l }

/-- The library `libWithQuery` on a run in which `range` visits the entries of
a map in the opposite order. -/
def libReversedRange : Lib :=
  { libWithQuery with mapRange := fun l => l.reverse }

/-- The request `POST /send` for `http://127.0.0.1:9999/echo?x=1` with the
headers `X-A: 1` and `X-B: 2`, an empty JSON object as body and
`concurrent = 1`. -/
def sendWithHeaders : Request (SendRequest String) :=
  { Method := "POST",
    decoded := Except.ok
      { TargetURL := "http://127.0.0.1:9999/echo?x=1", Method := "POST",
        Headers := [("X-A", "1"), ("X-B", "2")], Body := "{}", Concurrent := 1 } }

end Nethttp

/-!
# Single-connection dispatcher (`GoProject_Fashttp/src/main.go`)

Go strings and byte slices are byte sequences here, so that a request body is
any sequence of bytes.  A connection is what it delivers to successive `Read`
calls; once that list is used up the peer is silent with the connection open
and `Read` does not return.
-/

namespace Fashttp

/-- A Go `string` or `[]byte`. -/
abbrev Bytes := List UInt8

/-- The bytes of a text: its UTF-8 encoding. -/
def bytesOf (s : String) : Bytes :=
  s.toUTF8.data.toList

/-- The verb `%d` of `fmt.Sprintf` on an `int`. -/
def formatInt (n : Int) : Bytes :=
  bytesOf (toString n)

/-- The function `assembleHTTPRequest` (main.go:53-57). -/
def assembleHTTPRequest (method host path params : Bytes) (body : Bytes) : Bytes :=
  let requestLine :=
    method ++ bytesOf " " ++ path ++ bytesOf "?" ++ params ++ bytesOf " HTTP/1.1\r\n"
  let headers :=
    bytesOf "Host: " ++ host ++ bytesOf "\r\nContent-Length: " ++
      formatInt (body.length : Int) ++ bytesOf "\r\n\r\n"
  requestLine ++ headers ++ body

/-- The function `parseURLStr` (main.go:117-137) on the parsed URL: the
registry key `host:port`, the path and the query. -/
def parseURLStr (u : Nethttp.URL) : String × String × String :=
  (u.Hostname ++ ":" ++ u.Port, u.Path, u.RawQuery)

/-- The error of a `Read` call: `io.EOF` or another error. -/
inductive ReadError where
  | eof
  | other (msg : String)
deriving DecidableEq, Repr

/-- What one `conn.Read(tmp)` call returns: the bytes it stored in `tmp` and
its error. -/
structure ReadResult where
  data : Bytes
  err : Option ReadError
deriving DecidableEq, Repr

/-- Outcome of a call that may wait for the peer: it has returned, or it is
blocked in a `Read` that the silent, open connection never completes. -/
inductive Blocking (α : Type) where
  | returned (a : α)
  | blocked
deriving DecidableEq, Repr

/-- The read loop of `readFullResponse` (main.go:144-155) on the results of
the successive `Read` calls, with `buf` the bytes buffered so far: the
buffered bytes at `io.EOF`, or the error that ended the loop. -/
def readLoop : List ReadResult → Bytes → Blocking (Except String Bytes)
  | [], _ => Blocking.blocked
  | r :: rest, buf =>
    let buf := if r.data.length > 0 then buf ++ r.data else buf
    match r.err with
    | some ReadError.eof => Blocking.returned (Except.ok buf)
    | some (ReadError.other msg) => Blocking.returned (Except.error msg)
    | none => readLoop rest buf

/-- The function `readFullResponse` (main.go:140-167); `readResponse` is
`http.ReadResponse` on the buffered bytes. -/
def readFullResponse {ρ : Type} (readResponse : Bytes → Except String ρ)
    (reads : List ReadResult) : Blocking (Except String ρ) :=
  match readLoop reads [] with
  | Blocking.blocked => Blocking.blocked
  | Blocking.returned (Except.error msg) => Blocking.returned (Except.error msg)
  | Blocking.returned (Except.ok buf) =>
    match readResponse buf with
    | Except.error msg => Blocking.returned (Except.error msg)
    | Except.ok resp => Blocking.returned (Except.ok resp)

/-- What the handlers of this program write to the `fasthttp.RequestCtx`. -/
inductive Reply where
  | error (msg : String) (code : Nat)
  | ok (body : Bytes)
deriving DecidableEq, Repr

/-- The surroundings of `handleSendRequest`: `url.Parse`, the error of
`conn.Write` if any, what the connection delivers to the `Read` calls that
follow the write, `http.ReadResponse`, and `io.ReadAll` on the body of the
parsed response. -/
structure Net (ρ : Type) where
  urlParse : String → Except String Nethttp.URL
  writeError : Nethttp.Conn → Bytes → Option String
  reads : Nethttp.Conn → Bytes → List ReadResult
  readResponse : Bytes → Except String ρ
  readBody : ρ → Except String Bytes

/-- The function `handleSendRequest` (main.go:60-114) for the request method
`method`, the query argument `targetURL` and the request body `requestData`,
on the registry `connections`: the `Write` calls it made and its reply, if it
gets to reply. -/
def handleSendRequest {ρ : Type} (net : Net ρ) (connections : String → Option Nethttp.Conn)
    (method : String) (targetURL : String) (requestData : Bytes) :
    List (Nethttp.Conn × Bytes) × Blocking Reply :=
  if method ≠ "POST" then ([], Blocking.returned (Reply.error "只允许POST方法" 405))
  else
    match net.urlParse targetURL with
    | Except.error err =>
      ([], Blocking.returned (Reply.error ("failed to parse URL: " ++ err) 400))
    | Except.ok u =>
      let host := (parseURLStr u).1
      let path := (parseURLStr u).2.1
      match connections host with
      | none => ([], Blocking.returned (Reply.error "未找到已建立的连接" 400))
      | some conn =>
        let requestLine :=
          assembleHTTPRequest (bytesOf "POST") (bytesOf host) (bytesOf path) (bytesOf "")
            requestData
        match net.writeError conn requestLine with
        | some _ => ([(conn, requestLine)], Blocking.returned (Reply.error "发送请求失败" 500))
        | none =>
          match readFullResponse net.readResponse (net.reads conn requestLine) with
          | Blocking.blocked => ([(conn, requestLine)], Blocking.blocked)
          | Blocking.returned (Except.error _) =>
            ([(conn, requestLine)],
              Blocking.returned (Reply.error "读取或解析HTTP响应失败" 500))
          | Blocking.returned (Except.ok httpResponse) =>
            match net.readBody httpResponse with
            | Except.error _ =>
              ([(conn, requestLine)], Blocking.returned (Reply.error "读取响应体失败" 500))
            | Except.ok body => ([(conn, requestLine)], Blocking.returned (Reply.ok body))

/-! ## Sample inputs -/

/-- The bytes of a complete response with a `Content-Length` of 2. -/
def sampleResponse : Bytes :=
  bytesOf "HTTP/1.1 200 OK\r\nContent-Length: 2\r\n\r\nok"

/-- A connection that delivers `sampleResponse` in one `Read` and then stays
open and silent. -/
def keepAliveReads : List ReadResult :=
  [{ data := sampleResponse, err := none }]

/-- A connection that delivers `sampleResponse` in one `Read` and is then
closed by the peer. -/
def closedReads : List ReadResult :=
  [{ data := sampleResponse, err := none }, { data := [], err := some ReadError.eof }]

/-- Surroundings in which every URL parses to `http://127.0.0.1:9999/echo?x=1`,
every write succeeds, the peer answers with `sampleResponse` and keeps the
connection open, and the response parser hands back the bytes after the blank
line. -/
def netKeepAlive : Net Bytes :=
  { urlParse := fun _ => Except.ok ⟨"http", "127.0.0.1:9999", "/echo", "x=1"⟩,
    writeError := fun _ _ => none,
    reads := fun _ _ => keepAliveReads,
    readResponse := fun buf => Except.ok (buf.drop (buf.length - 2)),
    readBody := fun body => Except.ok body }

/-- The surroundings `netKeepAlive` with a peer that closes the connection
after its response. -/
def netClosing : Net Bytes :=
  { netKeepAlive with reads := fun _ _ => closedReads }

/-- A registry that holds connection 0 for `127.0.0.1:9999`. -/
def sampleConnections : String → Option Nethttp.Conn :=
  fun host => if host = "127.0.0.1:9999" then some ⟨0⟩ else none

end Fashttp

/-!
# Header maps of Go's `net/http`

The programs below use `http.Header`, a `map[string][]string`, through the
methods of the standard library.  A map is the function from keys to the
value stored under them; a map that is ranged over is given by the list of its
entries in the order the `range` statement visits them.
-/

namespace GoHTTP

/-- The bytes a header field name may contain (`validHeaderFieldByte` of
`net/textproto`): letters, digits and the other token characters. -/
def validHeaderFieldChar (c : Char) : Bool :=
  c.isAlphanum || "!#$%&'*+-.^_`|~".data.contains c

/-- The case rule of `canonicalMIMEHeaderKey`: upper case for the first letter
and for each letter after a dash, lower case for every other letter. -/
def canonicalCase : Bool → List Char → List Char
  | _, [] => []
  | upper, c :: rest =>
    let c1 :=
      if upper && c.isLower then c.toUpper
      else if !upper && c.isUpper then c.toLower
      else c
    c1 :: canonicalCase (c1 == '-') rest

/-- The function `textproto.CanonicalMIMEHeaderKey`: a name made of valid
bytes only is put in canonical case, any other name is returned unchanged. -/
def CanonicalMIMEHeaderKey (s : String) : String :=
  if s.data.all validHeaderFieldChar then String.mk (canonicalCase true s.data) else s

/-- The type `http.Header`. -/
abbrev Header := String → Option (List String)

/-- The header map without entries. -/
def Header.empty : Header :=
  fun _ => none

/-- The index expression `h[key]`: the values stored under `key`, none for an
absent key. -/
def Header.values (h : Header) (key : String) : List String :=
  (h key).getD []

/-- The map a `range` statement visits as `entries`. -/
def Header.ofEntries (entries : List (String × List String)) : Header :=
  fun key => entries.lookup key

/-- The method `Header.Add`. -/
def Header.Add (h : Header) (key value : String) : Header :=
  Function.update h (CanonicalMIMEHeaderKey key)
    (some (Header.values h (CanonicalMIMEHeaderKey key) ++ [value]))

/-- The method `Header.Set`. -/
def Header.Set (h : Header) (key value : String) : Header :=
  Function.update h (CanonicalMIMEHeaderKey key) (some [value])

/-- The method `Header.Del`. -/
def Header.Del (h : Header) (key : String) : Header :=
  Function.update h (CanonicalMIMEHeaderKey key) none

/-- The method `Header.Get`: the first value stored under the canonical form
of `key`, the empty string when there is none. -/
def Header.Get (h : Header) (key : String) : String :=
  match Header.values h (CanonicalMIMEHeaderKey key) with
  | [] => ""
  | v :: _ => v

end GoHTTP

/-!
# Forward proxy (`GoForwardProxy/main.go`)
-/

namespace ForwardProxy

/-- What `handleHTTP` reads of the inbound request: the method, the text of
the URL, the entries of the header map in the order `range` visits them, and
the body. -/
structure InRequest where
  Method : String
  URL : String
  Header : List (String × List String)
  Body : List UInt8

/-- The outbound request handed to `p.client.Do`. -/
structure OutRequest where
  Method : String
  URL : String
  Header : GoHTTP.Header
  Body : List UInt8

/-- What `handleHTTP` reads of the upstream response: the status code, the
entries of the header map in the order `range` visits them, and the body. -/
structure UpstreamResponse where
  StatusCode : Int
  Header : List (String × List String)
  Body : List UInt8

/-- What `handleHTTP` writes to its `http.ResponseWriter`. -/
inductive Reply where
  | error (msg : String) (code : Nat)
  | relayed (status : Int) (header : GoHTTP.Header) (body : List UInt8)

/-- The header copy of `handleHTTP` (main.go:71-75 and 86-90): for each entry
of the source, each of its values is added to the destination under the key of
the entry. -/
def copyHeader (dst : GoHTTP.Header) (src : List (String × List String)) : GoHTTP.Header :=
  src.foldl (fun acc kv => kv.2.foldl (fun acc1 value => GoHTTP.Header.Add acc1 kv.1 value) acc)
    dst

/-- The method `handleHTTP` (main.go:62-99): the outbound request it sent, if
it got that far, and its reply.  `newRequestError` is the error of
`http.NewRequest` if any and `clientDo` is `p.client.Do`. -/
def handleHTTP (newRequestError : Option String)
    (clientDo : OutRequest → Except String UpstreamResponse) (r : InRequest) :
    Option OutRequest × Reply :=
  match newRequestError with
  | some err => (none, Reply.error ("创建请求失败: " ++ err) 502)
  | none =>
    let req : OutRequest :=
      { Method := r.Method, URL := r.URL,
        Header := copyHeader GoHTTP.Header.empty r.Header, Body := r.Body }
    match clientDo req with
    | Except.error err => (some req, Reply.error ("请求失败: " ++ err) 502)
    | Except.ok resp =>
      (some req,
        Reply.relayed resp.StatusCode (copyHeader GoHTTP.Header.empty resp.Header) resp.Body)

/-- The two ends of a tunnel. -/
inductive Endpoint where
  | client
  | target
deriving DecidableEq, Repr

/-- What `handleHTTPS` does, step by step: an error reply on the
`http.ResponseWriter`, the take-over of the client connection, a dial, a
`Close`, a `Write`, the start of a `transfer` goroutine. -/
inductive Effect where
  | httpError (msg : String) (code : Nat)
  | hijack
  | dial (address : String)
  | close (e : Endpoint)
  | write (e : Endpoint) (bytes : String)
  | goTransfer (destination source : Endpoint)
deriving DecidableEq, Repr

/-- The method `handleHTTPS` (main.go:102-130) as the list of its effects in
program order.  `isHijacker` tells whether the writer is an `http.Hijacker`,
`hijackError` is the error of `Hijack` if any, `dialError` the error of
`net.Dial` for an address if any, and `host` is `r.URL.Host`. -/
def handleHTTPS (isHijacker : Bool) (hijackError : Option String)
    (dialError : String → Option String) (host : String) : List Effect :=
  if !isHijacker then [Effect.httpError "不支持的代理方式" 500]
  else
    match hijackError with
    | some err => [Effect.hijack, Effect.httpError ("连接劫持失败: " ++ err) 503]
    | none =>
      match dialError host with
      | some _ => [Effect.hijack, Effect.dial host, Effect.close Endpoint.client]
      | none =>
        [Effect.hijack, Effect.dial host,
          Effect.write Endpoint.client "HTTP/1.1 200 Connection Established\r\n\r\n",
          Effect.goTransfer Endpoint.target Endpoint.client,
          Effect.goTransfer Endpoint.client Endpoint.target]

/-- The effects of `handleHTTPS` that follow the take-over of the client
connection. -/
def afterHijack (trace : List Effect) : List Effect :=
  (trace.dropWhile (fun e => e != Effect.hijack)).drop 1

end ForwardProxy

/-!
# Logging relay (`GoHttpProxy/src/main.go`)
-/

namespace HttpProxy

/-- What `handleRequestAndRedirect` reads of the upstream response: the status
code, the entries of the header map in the order `range` visits them, and the
bytes of the body as received. -/
structure UpstreamResponse where
  StatusCode : Int
  Header : List (String × List String)
  Body : List UInt8

/-- What the gzip reader makes of a body: `gzip.NewReader` fails, and `rest`
is what is left of the body for the fallback read, or the body is decoded to
`out`. -/
inductive GzipResult where
  | badHeader (rest : List UInt8)
  | decoded (out : List UInt8)

/-- What `handleRequestAndRedirect` writes to its `http.ResponseWriter`. -/
inductive Reply where
  | error (msg : String) (code : Nat)
  | relayed (status : Int) (header : GoHTTP.Header) (body : List UInt8)

/-- The body the relay sends on (main.go:60-83): the gunzipped body when the
response says `Content-Encoding: gzip` and the gzip reader accepts it, what is
left of the body when the gzip reader rejects it, the body as received in
every other case. -/
def relayBody (gunzip : List UInt8 → GzipResult) (resp : UpstreamResponse) : List UInt8 :=
  if GoHTTP.Header.Get (GoHTTP.Header.ofEntries resp.Header) "Content-Encoding" = "gzip" then
    match gunzip resp.Body with
    | GzipResult.badHeader rest => rest
    | GzipResult.decoded out => out
  else resp.Body

/-- The header loop of the relay (main.go:87-91): every entry of the upstream
header map whose key is not `Content-Encoding` is stored in the header map of
the reply. -/
def relayHeader (src : List (String × List String)) : GoHTTP.Header :=
  src.foldl
    (fun acc kv => if kv.1 ≠ "Content-Encoding" then Function.update acc kv.1 (some kv.2) else acc)
    GoHTTP.Header.empty

/-- The function `handleRequestAndRedirect` (main.go:11-96).
`newRequestError` is the error of `http.NewRequest` if any, `clientDo` what
`client.Do` yields for the outbound request, `gunzip` the gzip reader. -/
def handleRequestAndRedirect (newRequestError : Option String)
    (clientDo : Except String UpstreamResponse) (gunzip : List UInt8 → GzipResult) : Reply :=
  match newRequestError with
  | some _ => Reply.error "Server Error" 500
  | none =>
    match clientDo with
    | Except.error _ => Reply.error "Server Error" 500
    | Except.ok resp =>
      Reply.relayed resp.StatusCode (relayHeader resp.Header) (relayBody gunzip resp)

/-- The relay decoded the body it sends on: the response says
`Content-Encoding: gzip` and the gzip reader accepted the body. -/
def decodedByRelay (gunzip : List UInt8 → GzipResult) (resp : UpstreamResponse) : Bool :=
  if GoHTTP.Header.Get (GoHTTP.Header.ofEntries resp.Header) "Content-Encoding" = "gzip" then
    match gunzip resp.Body with
    | GzipResult.badHeader _ => false
    | GzipResult.decoded _ => true
  else false

/-- An upstream response compressed with brotli. -/
def brotliResponse : UpstreamResponse :=
  { StatusCode := 200,
    Header := [("Content-Encoding", ["br"]), ("Content-Type", ["text/plain"])],
    Body := [27, 1, 0, 248, 141, 148, 110, 222, 68, 85, 3] }

/-- An upstream response that announces gzip and whose four-byte body is no
complete gzip header: the gzip reader consumes it and rejects it. -/
def gzipResponse : UpstreamResponse :=
  { StatusCode := 200,
    Header := [("Content-Encoding", ["gzip"]), ("Content-Type", ["text/plain"])],
    Body := [31, 139, 8, 0] }

end HttpProxy

/-!
# Reverse proxy (`GoReverseProxy/main.go`)

The proxy is `httputil.ReverseProxy` of the standard library with the
`Director` that `NewProxyServer` installs.  Of the library only the step of
`ReverseProxy.ServeHTTP` that follows the `Director` and removes headers is
modelled (`removeHopByHopHeaders`).
-/

namespace ReverseProxy

/-- An `http.Request`: its header map and, in `rest`, all its other fields. -/
structure Request (α : Type) where
  Header : GoHTTP.Header
  rest : α

/-- The `Director` installed by `NewProxyServer` (main.go:40-46):
`originalDirector` is the director of
`httputil.NewSingleHostReverseProxy(targetURL)`. -/
def director {α : Type} (originalDirector : Request α → Request α) (req : Request α) :
    Request α :=
  let req1 := originalDirector req
  { req1 with Header := GoHTTP.Header.Set req1.Header "X-Proxy-Server" "Go-Proxy" }

/-- The function `strings.Split(s, ",")` on the characters of `s`. -/
def splitComma : List Char → List (List Char)
  | [] => [[]]
  | c :: rest =>
    if c = ',' then [] :: splitComma rest
    else
      match splitComma rest with
      | [] => [[c]]
      | w :: ws => (c :: w) :: ws

/-- The function `textproto.TrimString`: without the ASCII white space at
both ends. -/
def trimString (l : List Char) : List Char :=
  let isSpace := fun (c : Char) => c == ' ' || c == '\t' || c == '\n' || c == '\r'
  ((l.dropWhile isSpace).reverse.dropWhile isSpace).reverse

/-- The header names listed in the values of the `Connection` header. -/
def connectionTokens (h : GoHTTP.Header) : List String :=
  (GoHTTP.Header.values h "Connection").flatMap
    (fun f => (((splitComma f.data).map trimString).filter (fun sf => sf ≠ [])).map String.mk)

/-- The variable `hopHeaders` of `net/http/httputil`. -/
def hopHeaders : List String :=
  ["Connection", "Proxy-Connection", "Keep-Alive", "Proxy-Authenticate", "Proxy-Authorization",
    "Te", "Trailer", "Transfer-Encoding", "Upgrade"]

/-- The function `removeHopByHopHeaders` of `net/http/httputil`, which
`ReverseProxy.ServeHTTP` applies to the outbound header map after the
`Director` has returned: the headers named in `Connection` are deleted, then
the hop-by-hop headers. -/
def removeHopByHopHeaders (h : GoHTTP.Header) : GoHTTP.Header :=
  hopHeaders.foldl GoHTTP.Header.Del ((connectionTokens h).foldl GoHTTP.Header.Del h)

/-- The header map of the request handed to the backend, as far as the
`Director` and the removal of hop-by-hop headers decide it. -/
def backendHeader {α : Type} (originalDirector : Request α → Request α) (req : Request α) :
    GoHTTP.Header :=
  removeHopByHopHeaders (director originalDirector req).Header

/-- An inbound request whose `Connection` header names `X-Proxy-Server`. -/
def strippingRequest : Request Unit :=
  { Header := GoHTTP.Header.ofEntries
      [("Connection", ["X-Proxy-Server"]), ("Accept", ["*/*"])],
    rest := () }

/-- An inbound request that brings its own `X-Proxy-Server` value. -/
def plainRequest : Request Unit :=
  { Header := GoHTTP.Header.ofEntries
      [("X-Proxy-Server", ["spoofed", "twice"]), ("Accept", ["*/*"])],
    rest := () }

end ReverseProxy

namespace Nethttp

/-! ## Round robin -/

theorem wrapInt64_of_small (x : Int) (h0 : 0 ≤ x) (h1 : x < 2 ^ 63) : wrapInt64 x = x := by
  unfold wrapInt64
  omega

/-- On a valid pool the call returns slot `(cursor + 1) mod n`. -/
theorem getNextConnection_valid (hc : HostConnections) (h : ValidPool hc) :
    ∃ (hlt : ((hc.lastUsed + 1) % (hc.Connections.length : Int)).toNat < hc.Connections.length),
      getNextConnection hc =
        ({ hc with lastUsed := (hc.lastUsed + 1) % (hc.Connections.length : Int) },
          GoResult.ret (hc.Connections.get ⟨_, hlt⟩)) := by
  obtain ⟨hpos, hbig, hlo, hhi⟩ := h
  have hn : (0 : Int) < hc.Connections.length := by exact_mod_cast hpos
  have hw : wrapInt64 (hc.lastUsed + 1) = hc.lastUsed + 1 :=
    wrapInt64_of_small _ (by omega) (by omega)
  have hmod : Int.tmod (hc.lastUsed + 1) (hc.Connections.length : Int)
      = (hc.lastUsed + 1) % (hc.Connections.length : Int) :=
    Int.tmod_eq_emod (by omega) (by omega)
  have h0 : 0 ≤ (hc.lastUsed + 1) % (hc.Connections.length : Int) :=
    Int.emod_nonneg _ (by omega)
  have h1 : (hc.lastUsed + 1) % (hc.Connections.length : Int) < hc.Connections.length :=
    Int.emod_lt_of_pos _ hn
  have hlt : ((hc.lastUsed + 1) % (hc.Connections.length : Int)).toNat
      < hc.Connections.length := by omega
  refine ⟨hlt, ?_⟩
  unfold getNextConnection
  rw [if_neg (by omega)]
  simp only [hw, hmod]
  rw [if_neg (by omega)]
  simp [List.getElem?_eq_getElem hlt]

theorem validPool_step (hc : HostConnections) (h : ValidPool hc) :
    ValidPool { hc with lastUsed := (hc.lastUsed + 1) % (hc.Connections.length : Int) } := by
  obtain ⟨hpos, hbig, hlo, hhi⟩ := h
  have hn : (0 : Int) < hc.Connections.length := by exact_mod_cast hpos
  exact ⟨hpos, hbig, Int.emod_nonneg _ (by omega), Int.emod_lt_of_pos _ hn⟩

theorem selectSlots_valid (k : Nat) (hc : HostConnections) (h : ValidPool hc) :
    selectSlots k hc =
      (List.range k).map
        (fun (j : Nat) => (hc.lastUsed + 1 + (j : Int)) % (hc.Connections.length : Int)) := by
  induction k generalizing hc with
  | zero => rfl
  | succ k ih =>
    obtain ⟨hlt, hg⟩ := getNextConnection_valid hc h
    rw [selectSlots, hg]
    simp only
    rw [ih _ (validPool_step hc h), List.range_succ_eq_map, List.map_cons, List.map_map]
    simp only [Nat.cast_zero, add_zero, List.cons.injEq, true_and]
    apply List.map_congr_left
    intro j _
    simp only [Function.comp, Nat.succ_eq_add_one, Nat.cast_add, Nat.cast_one]
    rw [add_assoc ((hc.lastUsed + 1) % (hc.Connections.length : Int)), Int.emod_add_emod]
    congr 1
    ring

theorem selectMany_valid (k : Nat) (hc : HostConnections) (h : ValidPool hc) :
    (selectMany k hc).1 =
        { hc with lastUsed := (hc.lastUsed + (k : Int)) % (hc.Connections.length : Int) } ∧
      (selectMany k hc).2.map some =
        (selectSlots k hc).map (fun s => hc.Connections[s.toNat]?) := by
  induction k generalizing hc with
  | zero =>
    obtain ⟨hpos, hbig, hlo, hhi⟩ := h
    simp [selectMany, selectSlots, Int.emod_eq_of_lt hlo hhi]
  | succ k ih =>
    obtain ⟨hlt, hg⟩ := getNextConnection_valid hc h
    obtain ⟨ih1, ih2⟩ := ih _ (validPool_step hc h)
    rw [selectMany, selectSlots, hg]
    simp only [List.map_cons]
    refine ⟨?_, ?_⟩
    · rw [ih1]
      simp only [HostConnections.mk.injEq, true_and]
      rw [Int.emod_add_emod]
      congr 1
      push_cast
      ring
    · rw [ih2]
      simp [List.getElem?_eq_getElem hlt]

/-- The slot visited by call number `j` (from 0) on a pool of `n` connections
whose cursor was `c`. -/
theorem slot_bounds (c : Int) (n j : Nat) (hn : 0 < n) :
    0 ≤ (c + 1 + (j : Int)) % (n : Int) ∧ (c + 1 + (j : Int)) % (n : Int) < n ∧
      ((c + 1 + (j : Int)) % (n : Int)).toNat < n := by
  have hn0 : (0 : Int) < n := by exact_mod_cast hn
  have h0 := Int.emod_nonneg (c + 1 + (j : Int)) (ne_of_gt hn0)
  have h1 := Int.emod_lt_of_pos (c + 1 + (j : Int)) hn0
  exact ⟨h0, h1, by omega⟩

theorem slot_injOn (c : Int) (n i j : Nat) (hi : i < n) (hj : j < n)
    (h : (c + 1 + (i : Int)) % (n : Int) = (c + 1 + (j : Int)) % (n : Int)) : i = j := by
  have h1 : (i : Int) ≡ (j : Int) [ZMOD (n : Int)] := Int.ModEq.add_left_cancel' (c + 1) h
  have h2 : (i : Int) % (n : Int) = (j : Int) % (n : Int) := h1
  rw [Int.emod_eq_of_lt (by omega) (by omega), Int.emod_eq_of_lt (by omega) (by omega)] at h2
  exact_mod_cast h2

theorem slot_surj (c : Int) (n s : Nat) (hs : s < n) :
    ∃ j : Nat, j < n ∧ (c + 1 + (j : Int)) % (n : Int) = s := by
  have hn0 : (0 : Int) < n := by omega
  have h0 := Int.emod_nonneg ((s : Int) - c - 1) (ne_of_gt hn0)
  have h1 := Int.emod_lt_of_pos ((s : Int) - c - 1) hn0
  refine ⟨(((s : Int) - c - 1) % (n : Int)).toNat, by omega, ?_⟩
  rw [Int.toNat_of_nonneg h0, Int.add_emod_emod]
  have : c + 1 + ((s : Int) - c - 1) = s := by ring
  rw [this]
  exact Int.emod_eq_of_lt (by omega) (by omega)

theorem selectSlots_count (hc : HostConnections) (h : ValidPool hc) (s : Nat)
    (hs : s < hc.Connections.length) :
    (selectSlots hc.Connections.length hc).count (s : Int) = 1 := by
  rw [selectSlots_valid _ hc h]
  apply List.count_eq_one_of_mem
  · apply List.Nodup.map_on _ (List.nodup_range _)
    intro x hx y hy hxy
    exact slot_injOn _ _ x y (List.mem_range.1 hx) (List.mem_range.1 hy) hxy
  · obtain ⟨j, hj, hjs⟩ := slot_surj hc.lastUsed _ s hs
    exact List.mem_map.2 ⟨j, List.mem_range.2 hj, hjs⟩

theorem selectMany_length (k : Nat) (hc : HostConnections) (h : ValidPool hc) :
    (selectMany k hc).2.length = k := by
  have := congrArg List.length (selectMany_valid k hc h).2
  rw [selectSlots_valid k hc h] at this
  simpa using this

theorem selectMany_getElem? (k : Nat) (hc : HostConnections) (h : ValidPool hc) (j : Nat)
    (hj : j < k) :
    (selectMany k hc).2[j]? =
      hc.Connections[((hc.lastUsed + 1 + (j : Int)) % (hc.Connections.length : Int)).toNat]? := by
  have h2 := congrArg (fun l => l[j]?) (selectMany_valid k hc h).2
  rw [selectSlots_valid k hc h] at h2
  simp only [List.getElem?_map, List.getElem?_range hj, Option.map_some'] at h2
  obtain ⟨_, _, hlt⟩ := slot_bounds hc.lastUsed hc.Connections.length j h.1
  rw [List.getElem?_eq_getElem hlt] at h2 ⊢
  cases hc' : (selectMany k hc).2[j]? with
  | none => rw [hc'] at h2; simp at h2
  | some x => rw [hc'] at h2; simpa using h2

theorem selectMany_rotate (hc : HostConnections) (h : ValidPool hc) :
    (selectMany hc.Connections.length hc).2 =
      hc.Connections.rotate ((hc.lastUsed + 1) % (hc.Connections.length : Int)).toNat := by
  apply List.ext_getElem?
  intro j
  by_cases hj : j < hc.Connections.length
  · rw [selectMany_getElem? _ hc h j hj, List.getElem?_rotate hj]
    congr 1
    have hn0 : (0 : Int) < hc.Connections.length := by exact_mod_cast h.1
    have h0 := Int.emod_nonneg (hc.lastUsed + 1) (ne_of_gt hn0)
    apply Int.ofNat_inj.1
    obtain ⟨hb0, _, _⟩ := slot_bounds hc.lastUsed hc.Connections.length j h.1
    rw [Int.toNat_of_nonneg hb0]
    push_cast
    rw [Int.toNat_of_nonneg h0, add_comm (j : Int), Int.emod_add_emod]
  · have h1 : (selectMany hc.Connections.length hc).2.length ≤ j := by
      rw [selectMany_length _ hc h]; omega
    have h2 : (hc.Connections.rotate
        ((hc.lastUsed + 1) % (hc.Connections.length : Int)).toNat).length ≤ j := by
      rw [List.length_rotate]; omega
    rw [List.getElem?_eq_none h1, List.getElem?_eq_none h2]

theorem selectMany_take (k m : Nat) (hc : HostConnections) (h : ValidPool hc) (hkm : k ≤ m) :
    (selectMany m hc).2.take k = (selectMany k hc).2 := by
  apply List.ext_getElem?
  intro j
  rw [List.getElem?_take]
  by_cases hj : j < k
  · rw [if_pos hj, selectMany_getElem? _ hc h j hj, selectMany_getElem? _ hc h j (by omega)]
  · rw [if_neg hj, List.getElem?_eq_none]
    rw [selectMany_length _ hc h]; omega

theorem selectSlots_take (k m : Nat) (hc : HostConnections) (h : ValidPool hc) (hkm : k ≤ m) :
    (selectSlots m hc).take k = selectSlots k hc := by
  rw [selectSlots_valid _ hc h, selectSlots_valid _ hc h, ← List.map_take, List.take_range,
    Nat.min_eq_left hkm]

/-- C1: on a pool of `n ≥ 1` connections with a valid cursor, `n + 1`
consecutive `getNextConnection` calls all return; each returns the connection
stored at the slot it moved the cursor to; the first slot is the cursor plus 1
modulo `n` and every later slot is the previous one plus 1 modulo `n`; the
first `n` calls visit every slot exactly once, so the connections they return
are the pool's connections, each once; and the `(n+1)`-th call returns the
connection of the first call. -/
theorem C1_select_next_full_cycle (hc : HostConnections) (h : ValidPool hc) :
    (selectSlots (hc.Connections.length + 1) hc).length = hc.Connections.length + 1 ∧
    (selectMany (hc.Connections.length + 1) hc).2.length = hc.Connections.length + 1 ∧
    (selectMany (hc.Connections.length + 1) hc).2.map some =
      (selectSlots (hc.Connections.length + 1) hc).map (fun s => hc.Connections[s.toNat]?) ∧
    (selectSlots (hc.Connections.length + 1) hc)[0]? =
      some ((hc.lastUsed + 1) % (hc.Connections.length : Int)) ∧
    (∀ j : Nat, j < hc.Connections.length →
      ∃ a : Int, (selectSlots (hc.Connections.length + 1) hc)[j]? = some a ∧
        (selectSlots (hc.Connections.length + 1) hc)[j + 1]? =
          some ((a + 1) % (hc.Connections.length : Int))) ∧
    (∀ s : Nat, s < hc.Connections.length →
      ((selectSlots (hc.Connections.length + 1) hc).take hc.Connections.length).count (s : Int)
        = 1) ∧
    ((selectMany (hc.Connections.length + 1) hc).2.take hc.Connections.length).Perm
      hc.Connections ∧
    (selectMany (hc.Connections.length + 1) hc).2[hc.Connections.length]? =
      (selectMany (hc.Connections.length + 1) hc).2[0]? ∧
    (selectMany (hc.Connections.length + 1) hc).2[0]? ≠ none := by
  have hS := selectSlots_valid (hc.Connections.length + 1) hc h
  have hn0 : (0 : Int) < hc.Connections.length := by exact_mod_cast h.1
  refine ⟨?_, selectMany_length _ hc h, (selectMany_valid _ hc h).2, ?_, ?_, ?_, ?_, ?_, ?_⟩
  · rw [hS]; simp
  · rw [hS, List.getElem?_map, List.getElem?_range (by omega)]
    simp
  · intro j hj
    refine ⟨(hc.lastUsed + 1 + (j : Int)) % (hc.Connections.length : Int), ?_, ?_⟩
    · rw [hS, List.getElem?_map, List.getElem?_range (by omega)]
      rfl
    · rw [hS, List.getElem?_map, List.getElem?_range (by omega)]
      simp only [Option.map_some', Option.some.injEq]
      rw [Int.emod_add_emod]
      congr 1
      push_cast
      ring
  · intro s hs
    rw [selectSlots_take _ _ hc h (Nat.le_succ _)]
    exact selectSlots_count hc h s hs
  · rw [selectMany_take _ _ hc h (Nat.le_succ _), selectMany_rotate hc h]
    exact List.rotate_perm _ _
  · rw [selectMany_getElem? _ hc h _ (Nat.lt_succ_self _),
      selectMany_getElem? _ hc h 0 (Nat.succ_pos _)]
    congr 2
    simp
  · rw [selectMany_getElem? _ hc h 0 (Nat.succ_pos _)]
    obtain ⟨_, _, hlt⟩ := slot_bounds hc.lastUsed hc.Connections.length 0 h.1
    rw [List.getElem?_eq_getElem hlt]
    simp

/-- C1 at a pool of three connections whose cursor stands at slot 1. -/
theorem C1_select_next_full_cycle_witness :
    ValidPool ⟨[⟨10⟩, ⟨11⟩, ⟨12⟩], 1⟩ ∧
    (selectMany 4 ⟨[⟨10⟩, ⟨11⟩, ⟨12⟩], 1⟩).2 = [⟨12⟩, ⟨10⟩, ⟨11⟩, ⟨12⟩] ∧
    selectSlots 4 ⟨[⟨10⟩, ⟨11⟩, ⟨12⟩], 1⟩ = [2, 0, 1, 2] ∧
    (selectMany (3 + 1) ⟨[⟨10⟩, ⟨11⟩, ⟨12⟩], 1⟩).2[3]? =
      (selectMany (3 + 1) ⟨[⟨10⟩, ⟨11⟩, ⟨12⟩], 1⟩).2[0]? :=
  ⟨by decide, by decide, by decide,
    (C1_select_next_full_cycle ⟨[⟨10⟩, ⟨11⟩, ⟨12⟩], 1⟩ (by decide)).2.2.2.2.2.2.2.1⟩

/-- C2: on a pool of `n ≥ 1` connections whose cursor `c` satisfies
`0 ≤ c < n`, `getNextConnection` returns (it does not panic), stores
`(c + 1) mod n` in the cursor, which is again an index of the pool, returns the
connection stored at that index, and leaves the connection sequence as it
was.  The call has no access to the log of `Close` calls, so it closes
nothing. -/
theorem C2_select_next_step (hc : HostConnections) (h : ValidPool hc) :
    ∃ c : Conn,
      (getNextConnection hc).2 = GoResult.ret c ∧
      (getNextConnection hc).1.lastUsed = (hc.lastUsed + 1) % (hc.Connections.length : Int) ∧
      0 ≤ (getNextConnection hc).1.lastUsed ∧
      (getNextConnection hc).1.lastUsed < ((getNextConnection hc).1.Connections.length : Int) ∧
      (getNextConnection hc).1.Connections = hc.Connections ∧
      hc.Connections[(getNextConnection hc).1.lastUsed.toNat]? = some c ∧
      ValidPool (getNextConnection hc).1 := by
  obtain ⟨hlt, hg⟩ := getNextConnection_valid hc h
  have hv := validPool_step hc h
  refine ⟨hc.Connections.get ⟨_, hlt⟩, ?_⟩
  rw [hg]
  refine ⟨rfl, rfl, hv.2.2.1, hv.2.2.2, rfl, ?_, hv⟩
  simp [List.getElem?_eq_getElem hlt]

/-- C2 at a pool of three connections whose cursor stands at the last slot:
the call wraps to slot 0. -/
theorem C2_select_next_step_witness :
    ValidPool ⟨[⟨10⟩, ⟨11⟩, ⟨12⟩], 2⟩ ∧
    getNextConnection ⟨[⟨10⟩, ⟨11⟩, ⟨12⟩], 2⟩ =
      (⟨[⟨10⟩, ⟨11⟩, ⟨12⟩], 0⟩, GoResult.ret ⟨10⟩) ∧
    ∃ c : Conn, (getNextConnection ⟨[⟨10⟩, ⟨11⟩, ⟨12⟩], 2⟩).2 = GoResult.ret c :=
  ⟨by decide, by decide,
    (C2_select_next_step ⟨[⟨10⟩, ⟨11⟩, ⟨12⟩], 2⟩ (by decide)).imp (fun _ hc => hc.1)⟩

/-! ## The dispatch of `/send` -/

/-- A request that passes the checks runs the dispatch on the registered pool
with the clamped number of tasks. -/
theorem HTTPRequestHandler_dispatch {β : Type} (lib : Lib)
    (io : Nat → Conn → String → Exchange) (marshal : β → Except String String) (w : World)
    (r : Request (SendRequest β)) (req : SendRequest β) (parsedURL : URL)
    (hostConns : HostConnections) (bodyBytes : String) (sched : List Event)
    (h : ReachesDispatch lib marshal w r req parsedURL hostConns bodyBytes) :
    HTTPRequestHandler lib io marshal w r sched =
      ({ w with
          connections := Function.update w.connections (sendHost parsedURL)
            (some (sendDispatch lib io req parsedURL hostConns bodyBytes sched).hc),
          written := w.written ++
            (sendDispatch lib io req parsedURL hostConns bodyBytes sched).written },
        (sendDispatch lib io req parsedURL hostConns bodyBytes sched).outcome
          (clampConcurrent req.Concurrent hostConns.Connections.length)) := by
  obtain ⟨h1, h2, h3, h4, h5, h6, h7⟩ := h
  unfold HTTPRequestHandler sendDispatch
  simp only [h1, h2, h3, h4, h5, h6, h7, ne_eq, not_true_eq_false, if_false, ite_false]

theorem clampConcurrent_eq (c : Int) (n : Nat) (hn : 1 ≤ n) :
    clampConcurrent c n = min (max c 1) (n : Int) := by
  unfold clampConcurrent
  have hn1 : (1 : Int) ≤ n := by exact_mod_cast hn
  by_cases h0 : c ≤ 0
  · simp only [h0, if_true]
    rw [max_eq_right (by omega), if_neg (by omega), min_eq_left hn1]
  · simp only [h0, if_false]
    rw [max_eq_left (by omega)]
    by_cases h1 : c > (n : Int)
    · rw [if_pos h1, min_eq_right (by omega)]
    · rw [if_neg h1, min_eq_left (by omega)]

/-- C4: for every requested `concurrent` and every pool of `n ≥ 1`
connections, the number of tasks `/send` launches (the initial wait-group
counter, which is also the length of the `responses` slice) is
`min (max concurrent 1) n`; it lies in `[1, n]`, is `concurrent` itself when
`1 ≤ concurrent ≤ n` and is `n` when `concurrent > n`. -/
theorem C4_concurrency_clamped (hc : HostConnections) (concurrent : Int)
    (hn : 1 ≤ hc.Connections.length) :
    clampConcurrent concurrent hc.Connections.length =
        min (max concurrent 1) (hc.Connections.length : Int) ∧
    (((Dispatch.init hc (clampConcurrent concurrent hc.Connections.length).toNat).wg : Nat) : Int)
        = min (max concurrent 1) (hc.Connections.length : Int) ∧
    (((Dispatch.init hc
        (clampConcurrent concurrent hc.Connections.length).toNat).responses.length : Nat) : Int)
        = min (max concurrent 1) (hc.Connections.length : Int) ∧
    1 ≤ clampConcurrent concurrent hc.Connections.length ∧
    clampConcurrent concurrent hc.Connections.length ≤ (hc.Connections.length : Int) ∧
    (1 ≤ concurrent → concurrent ≤ (hc.Connections.length : Int) →
      clampConcurrent concurrent hc.Connections.length = concurrent) ∧
    ((hc.Connections.length : Int) < concurrent →
      clampConcurrent concurrent hc.Connections.length = (hc.Connections.length : Int)) := by
  have he := clampConcurrent_eq concurrent _ hn
  have hn1 : (1 : Int) ≤ hc.Connections.length := by exact_mod_cast hn
  have h1 : 1 ≤ clampConcurrent concurrent hc.Connections.length := by
    rw [he]; exact le_min (le_max_right _ _) hn1
  refine ⟨he, ?_, ?_, h1, ?_, ?_, ?_⟩
  · rw [← he]
    simp only [Dispatch.init]
    omega
  · rw [← he]
    simp only [Dispatch.init, List.length_replicate]
    omega
  · rw [he]; exact min_le_right _ _
  · intro ha hb
    rw [he, max_eq_left ha, min_eq_left hb]
  · intro ha
    rw [he, max_eq_left (by omega), min_eq_right (by omega)]

/-- C4 at a pool of two connections and a requested concurrency of 5: two
tasks are launched. -/
theorem C4_concurrency_clamped_witness :
    clampConcurrent 5 2 = 2 ∧ clampConcurrent 0 2 = 1 ∧ clampConcurrent (-7) 2 = 1 ∧
    clampConcurrent 5 (HostConnections.mk [⟨0⟩, ⟨1⟩] 0).Connections.length =
      min (max 5 1) ((HostConnections.mk [⟨0⟩, ⟨1⟩] 0).Connections.length : Int) :=
  ⟨by decide, by decide, by decide, (C4_concurrency_clamped ⟨[⟨0⟩, ⟨1⟩], 0⟩ 5 (by decide)).1⟩

/-- C10 as stated fails: on an empty pool the call does not return to its
caller, so it hands it no error result; it panics. -/
theorem C10_empty_pool_does_not_return :
    (getNextConnection ⟨[], 0⟩).2 = GoResult.panic RuntimePanic.integerDivideByZero ∧
      ¬ ∃ c : Conn, (getNextConnection ⟨[], 0⟩).2 = GoResult.ret c := by
  have hg : (getNextConnection ⟨[], 0⟩).2 = GoResult.panic RuntimePanic.integerDivideByZero := by
    decide
  refine ⟨hg, ?_⟩
  rw [hg]
  rintro ⟨c, hc⟩
  cases hc

/-- C10, amended: on a pool whose connection sequence is empty
`getNextConnection` returns nothing to its caller, neither a connection nor an
error value: the remainder by the pool length panics with an integer divide
by zero before the cursor is stored, so the pool and its cursor are
unchanged.  The failure for an empty pool is reported by the guard of the
`/send` handler, which replies 400 before any selection and leaves the process
state as it was. -/
theorem C10_empty_pool_panics (hc : HostConnections) (h : hc.Connections = []) :
    getNextConnection hc = (hc, GoResult.panic RuntimePanic.integerDivideByZero) ∧
      (getNextConnection hc).1.lastUsed = hc.lastUsed ∧
      (¬ ∃ c : Conn, (getNextConnection hc).2 = GoResult.ret c) ∧
      (∀ (β : Type) (lib : Lib) (io : Nat → Conn → String → Exchange)
        (marshal : β → Except String String) (w : World) (r : Request (SendRequest β))
        (req : SendRequest β) (parsedURL : URL) (sched : List Event),
        r.Method = "POST" → r.decoded = Except.ok req → req.TargetURL ≠ "" →
        lib.urlParse req.TargetURL = Except.ok parsedURL →
        w.connections (sendHost parsedURL) = some hc →
        HTTPRequestHandler lib io marshal w r sched =
          (w, Outcome.replied (Reply.text 400 "未找到已建立的连接\n"))) := by
  have hg : getNextConnection hc = (hc, GoResult.panic RuntimePanic.integerDivideByZero) := by
    unfold getNextConnection
    simp [h]
  refine ⟨hg, by rw [hg], ?_, ?_⟩
  · rw [hg]
    rintro ⟨c, hc1⟩
    cases hc1
  · intro β lib io marshal w r req parsedURL sched h1 h2 h3 h4 h5
    unfold HTTPRequestHandler
    simp only [h1, h2, h3, h4, h5, h, ne_eq, not_true_eq_false, if_false, List.length_nil,
      if_true]
    rfl

/-- C10 (amended) at the empty pool whose cursor is 5. -/
theorem C10_empty_pool_panics_witness :
    (HostConnections.mk [] 5).Connections = [] ∧
      getNextConnection ⟨[], 5⟩ = (⟨[], 5⟩, GoResult.panic RuntimePanic.integerDivideByZero) :=
  ⟨rfl, (C10_empty_pool_panics ⟨[], 5⟩ rfl).1⟩

theorem slotAfter_lt (c : Int) (n j : Nat) (hn : 0 < n) : slotAfter c n j < n :=
  (slot_bounds c n j hn).2.2

theorem nodup_length_le (l : List Nat) (k : Nat) (hn : l.Nodup) (hlt : ∀ i ∈ l, i < k) :
    l.length ≤ k := by
  have hsub : l ⊆ List.range k := fun i hi => List.mem_range.2 (hlt i hi)
  have := (List.subperm_of_subset hn hsub).length_le
  simpa using this

theorem taskResponse_update_ne (io : Nat → Conn → String → Exchange) (httpRequest : String)
    (selected : Nat → Option Conn) (i j : Nat) (v : Option Conn) (h : j ≠ i) :
    taskResponse io httpRequest (Function.update selected i v) j =
      taskResponse io httpRequest selected j := by
  unfold taskResponse
  rw [Function.update_noteq h]

theorem taskError_update_ne (io : Nat → Conn → String → Exchange) (httpRequest : String)
    (selected : Nat → Option Conn) (i j : Nat) (v : Option Conn) (h : j ≠ i) :
    taskError io httpRequest (Function.update selected i v) j =
      taskError io httpRequest selected j := by
  unfold taskError
  rw [Function.update_noteq h]

theorem DispatchInv.init (io : Nat → Conn → String → Exchange) (httpRequest : String)
    (hc0 : HostConnections) (k : Nat) (hv : ValidPool hc0) :
    DispatchInv io httpRequest hc0 k (Dispatch.init hc0 k) [] [] := by
  obtain ⟨hpos, hbig, hlo, hhi⟩ := hv
  refine
    { crashed_none := rfl, hc_eq := ?_, order_nodup := List.nodup_nil, order_lt := ?_,
      sel_order := ?_, sel_none := ?_, done_nodup := List.nodup_nil, done_sub := ?_,
      fin_iff := ?_, wg_eq := rfl, resp_len := ?_, resp_eq := ?_, err_eq := rfl,
      written_eq := rfl }
  · simp [Dispatch.init, Int.emod_eq_of_lt hlo hhi]
  · intro i hi; cases hi
  · intro j i hj; simp at hj
  · intro i _; rfl
  · intro i hi; cases hi
  · intro i; simp [Dispatch.init]
  · simp [Dispatch.init]
  · intro i hi
    simp [Dispatch.init, List.getElem?_replicate, hi]

theorem DispatchInv.validPool (io : Nat → Conn → String → Exchange) (httpRequest : String)
    (hc0 : HostConnections) (k : Nat) (d : Dispatch) (order done : List Nat)
    (hv : ValidPool hc0) (h : DispatchInv io httpRequest hc0 k d order done) :
    ValidPool d.hc := by
  obtain ⟨hpos, hbig, hlo, hhi⟩ := hv
  have hn : (0 : Int) < hc0.Connections.length := by exact_mod_cast hpos
  rw [h.hc_eq]
  exact ⟨hpos, hbig, Int.emod_nonneg _ (by omega), Int.emod_lt_of_pos _ hn⟩

/-- A task that has selected holds a connection. -/
theorem DispatchInv.selected_of_mem (io : Nat → Conn → String → Exchange)
    (httpRequest : String) (hc0 : HostConnections) (k : Nat) (d : Dispatch)
    (order done : List Nat) (hv : ValidPool hc0)
    (h : DispatchInv io httpRequest hc0 k d order done) (i : Nat) (hi : i ∈ order) :
    ∃ j c, order[j]? = some i ∧ d.selected i = some c ∧
      hc0.Connections[slotAfter hc0.lastUsed hc0.Connections.length j]? = some c := by
  obtain ⟨j, hj⟩ := List.mem_iff_getElem?.1 hi
  have hlt := slotAfter_lt hc0.lastUsed hc0.Connections.length j hv.1
  refine ⟨j, hc0.Connections[slotAfter hc0.lastUsed hc0.Connections.length j], hj, ?_, ?_⟩
  · rw [h.sel_order j i hj, List.getElem?_eq_getElem hlt]
  · rw [List.getElem?_eq_getElem hlt]

theorem DispatchInv.mem_order_iff (io : Nat → Conn → String → Exchange)
    (httpRequest : String) (hc0 : HostConnections) (k : Nat) (d : Dispatch)
    (order done : List Nat) (hv : ValidPool hc0)
    (h : DispatchInv io httpRequest hc0 k d order done) (i : Nat) :
    i ∈ order ↔ (d.selected i).isSome = true := by
  constructor
  · intro hi
    obtain ⟨j, c, _, hc, _⟩ := h.selected_of_mem io httpRequest hc0 k d order done hv i hi
    rw [hc]; rfl
  · intro hs
    by_contra hni
    rw [h.sel_none i hni] at hs
    cases hs

/-- The invariant survives a `select` event. -/
theorem DispatchInv.step_select (io : Nat → Conn → String → Exchange) (httpRequest : String)
    (hc0 : HostConnections) (k : Nat) (d : Dispatch) (order done : List Nat)
    (hv : ValidPool hc0) (h : DispatchInv io httpRequest hc0 k d order done) (i : Nat) :
    ∃ order1, DispatchInv io httpRequest hc0 k
      (Dispatch.step io httpRequest k d (Event.select i)) order1 done := by
  simp only [Dispatch.step]
  by_cases hskip : (d.crashed.isSome || decide (k ≤ i) || (d.selected i).isSome) = true
  · rw [if_pos hskip]
    exact ⟨order, h⟩
  · rw [if_neg hskip]
    simp only [Bool.or_eq_true, decide_eq_true_eq, not_or, not_le] at hskip
    obtain ⟨⟨_, hik⟩, hsel⟩ := hskip
    have hio : i ∉ order := fun hi =>
      hsel ((h.mem_order_iff io httpRequest hc0 k d order done hv i).1 hi)
    have hvd := h.validPool io httpRequest hc0 k d order done hv
    obtain ⟨hlt, hg⟩ := getNextConnection_valid d.hc hvd
    rw [hg]
    simp only
    have hconn : d.hc.Connections = hc0.Connections := by rw [h.hc_eq]
    have hcur : d.hc.lastUsed =
        (hc0.lastUsed + (order.length : Int)) % (hc0.Connections.length : Int) := by
      rw [h.hc_eq]
    have hslot : ((d.hc.lastUsed + 1) % (d.hc.Connections.length : Int)).toNat =
        slotAfter hc0.lastUsed hc0.Connections.length order.length := by
      unfold slotAfter
      rw [hconn, hcur, Int.emod_add_emod]
      congr 2
      ring
    have hne : ∀ x, x ∈ order → x ≠ i := fun x hx hxi => hio (hxi ▸ hx)
    refine ⟨order ++ [i],
      { crashed_none := h.crashed_none, hc_eq := ?_, order_nodup := ?_, order_lt := ?_,
        sel_order := ?_, sel_none := ?_, done_nodup := h.done_nodup, done_sub := ?_,
        fin_iff := h.fin_iff, wg_eq := h.wg_eq, resp_len := h.resp_len, resp_eq := ?_,
        err_eq := ?_, written_eq := ?_ }⟩
    · simp only [hconn, hcur, List.length_append, List.length_singleton, Nat.cast_add,
        Nat.cast_one, HostConnections.mk.injEq, true_and]
      rw [Int.emod_add_emod, add_assoc]
    · exact List.nodup_append.2 ⟨h.order_nodup, List.nodup_singleton _,
        fun x hx hx1 => hne x hx (List.mem_singleton.1 hx1)⟩
    · intro x hx
      rcases List.mem_append.1 hx with hx | hx
      · exact h.order_lt x hx
      · rw [List.mem_singleton.1 hx]; exact hik
    · intro j x hj
      by_cases hjl : j < order.length
      · rw [List.getElem?_append_left hjl] at hj
        have hx : x ∈ order := List.mem_iff_getElem?.2 ⟨j, hj⟩
        simp only [Function.update_noteq (hne x hx)]
        exact h.sel_order j x hj
      · rw [List.getElem?_append_right (by omega)] at hj
        have hj0 : j - order.length = 0 := by
          by_contra hne0
          rw [List.getElem?_eq_none (by simp; omega)] at hj
          cases hj
        rw [hj0] at hj
        simp only [List.getElem?_cons_zero, Option.some.injEq] at hj
        subst hj
        have hjeq : j = order.length := by omega
        subst hjeq
        simp only [Function.update_same]
        rw [← hslot, ← hconn, List.getElem?_eq_getElem hlt]
        rfl
    · intro x hx
      have hx1 : x ∉ order := fun hmem => hx (List.mem_append_left _ hmem)
      have hx2 : x ≠ i := fun hxi => hx (List.mem_append_right _ (List.mem_singleton.2 hxi))
      simp only [Function.update_noteq hx2]
      exact h.sel_none x hx1
    · intro x hx
      exact List.mem_append_left _ (h.done_sub x hx)
    · intro x hx
      simp only
      rw [h.resp_eq x hx]
      by_cases hxd : x ∈ done
      · rw [if_pos hxd, if_pos hxd,
          taskResponse_update_ne io httpRequest d.selected i x _ (hne x (h.done_sub x hxd))]
      · rw [if_neg hxd, if_neg hxd]
    · simp only
      rw [h.err_eq]
      apply List.filterMap_congr
      intro x hx
      rw [taskError_update_ne io httpRequest d.selected i x _ (hne x (h.done_sub x hx))]
    · simp only
      rw [h.written_eq]
      apply List.filterMap_congr
      intro x hx
      rw [Function.update_noteq (hne x (h.done_sub x hx))]

/-- The invariant survives a `finish` event. -/
theorem DispatchInv.step_finish (io : Nat → Conn → String → Exchange) (httpRequest : String)
    (hc0 : HostConnections) (k : Nat) (d : Dispatch) (order done : List Nat)
    (hv : ValidPool hc0) (h : DispatchInv io httpRequest hc0 k d order done) (i : Nat) :
    ∃ done1, DispatchInv io httpRequest hc0 k
      (Dispatch.step io httpRequest k d (Event.finish i)) order done1 := by
  simp only [Dispatch.step]
  by_cases hskip : (d.crashed.isSome || d.finished i) = true
  · rw [if_pos hskip]
    exact ⟨done, h⟩
  · rw [if_neg hskip]
    simp only [Bool.or_eq_true, not_or, Bool.not_eq_true] at hskip
    obtain ⟨_, hfin⟩ := hskip
    cases hsel : d.selected i with
    | none => exact ⟨done, h⟩
    | some conn =>
      simp only
      have hio : i ∈ order :=
        (h.mem_order_iff io httpRequest hc0 k d order done hv i).2 (by rw [hsel]; rfl)
      have hid : i ∉ done := fun hi => by
        have := (h.fin_iff i).2 hi
        rw [hfin] at this
        cases this
      have hik : i < k := h.order_lt i hio
      have hnd : (done ++ [i]).Nodup :=
        List.nodup_append.2 ⟨h.done_nodup, List.nodup_singleton _,
          fun x hx hx1 => hid ((List.mem_singleton.1 hx1) ▸ hx)⟩
      have hsub : ∀ x ∈ done ++ [i], x ∈ order := by
        intro x hx
        rcases List.mem_append.1 hx with hx | hx
        · exact h.done_sub x hx
        · rw [List.mem_singleton.1 hx]; exact hio
      have hlen : (done ++ [i]).length ≤ k :=
        nodup_length_le _ k hnd (fun x hx => h.order_lt x (hsub x hx))
      have hwg : d.wg - 1 + (done ++ [i]).length = k := by
        have := h.wg_eq
        simp only [List.length_append, List.length_singleton] at hlen ⊢
        omega
      have hfin1 : ∀ x, Function.update d.finished i true x = true ↔ x ∈ done ++ [i] := by
        intro x
        by_cases hx : x = i
        · subst hx
          simp
        · rw [Function.update_noteq hx, h.fin_iff x]
          simp [hx]
      have hwr : d.written ++ [(conn, httpRequest)] =
          (done ++ [i]).filterMap
            (fun x => (d.selected x).map (fun c => (c, httpRequest))) := by
        rw [List.filterMap_append, ← h.written_eq]
        simp [hsel]
      cases hsend : sendSingleRequest (io i conn httpRequest) with
      | error err =>
        simp only
        have hte : taskError io httpRequest d.selected i = some err := by
          simp only [taskError, hsel, hsend]
        have htr : taskResponse io httpRequest d.selected i = none := by
          simp only [taskResponse, hsel, hsend]
        refine ⟨done ++ [i],
          { crashed_none := h.crashed_none, hc_eq := h.hc_eq, order_nodup := h.order_nodup,
            order_lt := h.order_lt, sel_order := h.sel_order, sel_none := h.sel_none,
            done_nodup := hnd, done_sub := hsub, fin_iff := hfin1, wg_eq := hwg,
            resp_len := h.resp_len, resp_eq := ?_, err_eq := ?_, written_eq := hwr }⟩
        · intro x hx
          simp only
          rw [h.resp_eq x hx]
          by_cases hxi : x = i
          · subst hxi
            simp [hid, htr]
          · simp [hxi]
        · simp only
          rw [List.filterMap_append, ← h.err_eq]
          simp [hte]
      | ok resp =>
        simp only
        have hte : taskError io httpRequest d.selected i = none := by
          simp only [taskError, hsel, hsend]
        have htr : taskResponse io httpRequest d.selected i = some resp := by
          simp only [taskResponse, hsel, hsend]
        refine ⟨done ++ [i],
          { crashed_none := h.crashed_none, hc_eq := h.hc_eq, order_nodup := h.order_nodup,
            order_lt := h.order_lt, sel_order := h.sel_order, sel_none := h.sel_none,
            done_nodup := hnd, done_sub := hsub, fin_iff := hfin1, wg_eq := hwg,
            resp_len := ?_, resp_eq := ?_, err_eq := ?_, written_eq := hwr }⟩
        · simp only [List.length_set]
          exact h.resp_len
        · intro x hx
          simp only
          rw [List.getElem?_set]
          by_cases hxi : i = x
          · subst hxi
            rw [if_pos rfl, if_pos (by rw [h.resp_len]; exact hik)]
            simp [htr]
          · rw [if_neg hxi, h.resp_eq x hx]
            have hxi1 : x ≠ i := fun hh => hxi hh.symm
            simp [hxi1]
        · simp only
          rw [List.filterMap_append, ← h.err_eq]
          simp [hte]

/-- The invariant holds after every schedule. -/
theorem DispatchInv.run (io : Nat → Conn → String → Exchange) (httpRequest : String)
    (hc0 : HostConnections) (k : Nat) (hv : ValidPool hc0) (sched : List Event) :
    ∀ (d : Dispatch) (order done : List Nat), DispatchInv io httpRequest hc0 k d order done →
      ∃ order1 done1, DispatchInv io httpRequest hc0 k
        (Dispatch.run io httpRequest k d sched) order1 done1 := by
  induction sched with
  | nil =>
    intro d order done h
    exact ⟨order, done, h⟩
  | cons e rest ih =>
    intro d order done h
    simp only [Dispatch.run, List.foldl_cons]
    cases e with
    | select i =>
      obtain ⟨order1, h1⟩ := h.step_select io httpRequest hc0 k d order done hv i
      exact ih _ order1 done h1
    | finish i =>
      obtain ⟨done1, h1⟩ := h.step_finish io httpRequest hc0 k d order done hv i
      exact ih _ order done1 h1

theorem nodup_full (l : List Nat) (k : Nat) (hn : l.Nodup) (hlt : ∀ i ∈ l, i < k)
    (hlen : l.length = k) : ∀ i, i < k → i ∈ l := by
  intro i hi
  have hsub : l ⊆ List.range k := fun x hx => List.mem_range.2 (hlt x hx)
  have hperm : l.Perm (List.range k) :=
    (List.subperm_of_subset hn hsub).perm_of_length_le (by simp [hlen])
  exact hperm.mem_iff.2 (List.mem_range.2 hi)

theorem clampConcurrent_toNat_le (concurrent : Int) (n : Nat) (hn : 1 ≤ n) :
    1 ≤ (clampConcurrent concurrent n).toNat ∧ (clampConcurrent concurrent n).toNat ≤ n := by
  have he := clampConcurrent_eq concurrent n hn
  have hn1 : (1 : Int) ≤ n := by exact_mod_cast hn
  have h1 : 1 ≤ clampConcurrent concurrent n := by
    rw [he]; exact le_min (le_max_right _ _) hn1
  have h2 : clampConcurrent concurrent n ≤ n := by
    rw [he]; exact min_le_right _ _
  omega

/-- Once the wait group is at zero every task has selected and completed. -/
theorem DispatchInv.all_done (io : Nat → Conn → String → Exchange) (httpRequest : String)
    (hc0 : HostConnections) (k : Nat) (d : Dispatch) (order done : List Nat)
    (h : DispatchInv io httpRequest hc0 k d order done) (hwg : d.wg = 0) :
    ∀ i, i < k → i ∈ done := by
  have hlen : done.length = k := by
    have := h.wg_eq
    omega
  exact nodup_full done k h.done_nodup (fun i hi => h.order_lt i (h.done_sub i hi)) hlen

/-- Two tasks of one dispatch that have selected hold different connections
when the pool has no duplicate and the dispatch has at most as many tasks as
the pool has connections. -/
theorem DispatchInv.selected_injective (io : Nat → Conn → String → Exchange)
    (httpRequest : String) (hc0 : HostConnections) (k : Nat) (d : Dispatch)
    (order done : List Nat) (hv : ValidPool hc0) (hnd : hc0.Connections.Nodup)
    (hk : k ≤ hc0.Connections.length)
    (h : DispatchInv io httpRequest hc0 k d order done) (i j : Nat) (a b : Conn)
    (hij : i ≠ j) (ha : d.selected i = some a) (hb : d.selected j = some b) : a ≠ b := by
  have hi : i ∈ order :=
    (h.mem_order_iff io httpRequest hc0 k d order done hv i).2 (by rw [ha]; rfl)
  have hj : j ∈ order :=
    (h.mem_order_iff io httpRequest hc0 k d order done hv j).2 (by rw [hb]; rfl)
  obtain ⟨pi, ci, hpi, hci, hsi⟩ := h.selected_of_mem io httpRequest hc0 k d order done hv i hi
  obtain ⟨pj, cj, hpj, hcj, hsj⟩ := h.selected_of_mem io httpRequest hc0 k d order done hv j hj
  rw [ha] at hci
  rw [hb] at hcj
  cases hci
  cases hcj
  intro hab
  subst hab
  have hlen := nodup_length_le order k h.order_nodup h.order_lt
  have hpil : pi < order.length := (List.getElem?_eq_some_iff.1 hpi).1
  have hpjl : pj < order.length := (List.getElem?_eq_some_iff.1 hpj).1
  have hslot : slotAfter hc0.lastUsed hc0.Connections.length pi =
      slotAfter hc0.lastUsed hc0.Connections.length pj :=
    List.getElem?_inj (slotAfter_lt _ _ _ hv.1) hnd (hsi.trans hsj.symm)
  obtain ⟨hi0, _, _⟩ := slot_bounds hc0.lastUsed hc0.Connections.length pi hv.1
  obtain ⟨hj0, _, _⟩ := slot_bounds hc0.lastUsed hc0.Connections.length pj hv.1
  have hint : (hc0.lastUsed + 1 + (pi : Int)) % (hc0.Connections.length : Int) =
      (hc0.lastUsed + 1 + (pj : Int)) % (hc0.Connections.length : Int) := by
    unfold slotAfter at hslot
    omega
  have hpp : pi = pj := slot_injOn _ _ pi pj (by omega) (by omega) hint
  subst hpp
  rw [hpi] at hpj
  exact hij (Option.some.inj hpj)

/-- C3: on a pool of `n ≥ 1` pairwise distinct connections with a valid
cursor, for every requested concurrency and every schedule of the
`k = clampConcurrent` tasks of one dispatch, two different tasks never hold
the same connection, every connection a task holds is one of the pool, and
once the handler is past `wg.Wait()` each of the `k` tasks holds one.  Run one
after the other, the `k` selections return `k` pairwise distinct
connections. -/
theorem C3_dispatch_connections_distinct (io : Nat → Conn → String → Exchange)
    (httpRequest : String) (hc : HostConnections) (concurrent : Int) (sched : List Event)
    (hv : ValidPool hc) (hnd : hc.Connections.Nodup) :
    (selectMany (clampConcurrent concurrent hc.Connections.length).toNat hc).2.length =
      (clampConcurrent concurrent hc.Connections.length).toNat ∧
    (selectMany (clampConcurrent concurrent hc.Connections.length).toNat hc).2.Nodup ∧
    (∀ (i j : Nat) (a b : Conn), i ≠ j →
      (Dispatch.run io httpRequest (clampConcurrent concurrent hc.Connections.length).toNat
        (Dispatch.init hc (clampConcurrent concurrent hc.Connections.length).toNat)
        sched).selected i = some a →
      (Dispatch.run io httpRequest (clampConcurrent concurrent hc.Connections.length).toNat
        (Dispatch.init hc (clampConcurrent concurrent hc.Connections.length).toNat)
        sched).selected j = some b → a ≠ b) ∧
    (∀ (i : Nat) (a : Conn),
      (Dispatch.run io httpRequest (clampConcurrent concurrent hc.Connections.length).toNat
        (Dispatch.init hc (clampConcurrent concurrent hc.Connections.length).toNat)
        sched).selected i = some a →
      a ∈ hc.Connections ∧ i < (clampConcurrent concurrent hc.Connections.length).toNat) ∧
    ((Dispatch.run io httpRequest (clampConcurrent concurrent hc.Connections.length).toNat
        (Dispatch.init hc (clampConcurrent concurrent hc.Connections.length).toNat)
        sched).wg = 0 →
      ∀ i, i < (clampConcurrent concurrent hc.Connections.length).toNat →
        ∃ a, (Dispatch.run io httpRequest (clampConcurrent concurrent hc.Connections.length).toNat
          (Dispatch.init hc (clampConcurrent concurrent hc.Connections.length).toNat)
          sched).selected i = some a) := by
  obtain ⟨hk1, hkn⟩ := clampConcurrent_toNat_le concurrent hc.Connections.length hv.1
  generalize (clampConcurrent concurrent hc.Connections.length).toNat = k at hk1 hkn ⊢
  obtain ⟨order, done, h⟩ := DispatchInv.run io httpRequest hc k hv sched _ [] []
    (DispatchInv.init io httpRequest hc k hv)
  refine ⟨selectMany_length k hc hv, ?_, ?_, ?_, ?_⟩
  · rw [← selectMany_take k _ hc hv hkn, selectMany_rotate hc hv]
    exact (List.nodup_rotate.2 hnd).sublist (List.take_sublist _ _)
  · intro i j a b hij ha hb
    exact h.selected_injective io httpRequest hc k _ order done hv hnd hkn i j a b hij ha hb
  · intro i a ha
    have hi : i ∈ order :=
      (h.mem_order_iff io httpRequest hc k _ order done hv i).2 (by rw [ha]; rfl)
    obtain ⟨p, c, _, hc1, hc2⟩ := h.selected_of_mem io httpRequest hc k _ order done hv i hi
    rw [ha] at hc1
    cases hc1
    exact ⟨List.mem_iff_getElem?.2 ⟨_, hc2⟩, h.order_lt i hi⟩
  · intro hwg i hi
    have hid := h.all_done io httpRequest hc k _ order done hwg i hi
    obtain ⟨p, c, _, hc1, _⟩ :=
      h.selected_of_mem io httpRequest hc k _ order done hv i (h.done_sub i hid)
    exact ⟨c, hc1⟩

/-! ### Every task gets to run -/

theorem step_select_selected (io : Nat → Conn → String → Exchange) (httpRequest : String)
    (hc0 : HostConnections) (k : Nat) (d : Dispatch) (order done : List Nat)
    (hv : ValidPool hc0) (h : DispatchInv io httpRequest hc0 k d order done) (i : Nat) :
    (∀ x, (d.selected x).isSome = true →
      ((Dispatch.step io httpRequest k d (Event.select i)).selected x).isSome = true) ∧
    (i < k → ((Dispatch.step io httpRequest k d (Event.select i)).selected i).isSome = true) ∧
    (Dispatch.step io httpRequest k d (Event.select i)).finished = d.finished := by
  simp only [Dispatch.step]
  by_cases hskip : (d.crashed.isSome || decide (k ≤ i) || (d.selected i).isSome) = true
  · rw [if_pos hskip]
    refine ⟨fun x hx => hx, ?_, rfl⟩
    intro hik
    simp only [Bool.or_eq_true, decide_eq_true_eq, h.crashed_none] at hskip
    rcases hskip with (hskip | hskip) | hskip
    · cases hskip
    · omega
    · exact hskip
  · rw [if_neg hskip]
    have hvd := h.validPool io httpRequest hc0 k d order done hv
    obtain ⟨hlt, hg⟩ := getNextConnection_valid d.hc hvd
    rw [hg]
    refine ⟨?_, ?_, rfl⟩
    · intro x hx
      by_cases hxi : x = i
      · subst hxi
        simp
      · simp only [Function.update_noteq hxi]
        exact hx
    · intro _
      simp

theorem step_finish_finished (io : Nat → Conn → String → Exchange) (httpRequest : String)
    (hc0 : HostConnections) (k : Nat) (d : Dispatch) (order done : List Nat)
    (h : DispatchInv io httpRequest hc0 k d order done) (i : Nat) :
    (Dispatch.step io httpRequest k d (Event.finish i)).selected = d.selected ∧
    (∀ x, d.finished x = true →
      (Dispatch.step io httpRequest k d (Event.finish i)).finished x = true) ∧
    ((d.selected i).isSome = true →
      (Dispatch.step io httpRequest k d (Event.finish i)).finished i = true) := by
  simp only [Dispatch.step]
  by_cases hskip : (d.crashed.isSome || d.finished i) = true
  · rw [if_pos hskip]
    refine ⟨rfl, fun x hx => hx, ?_⟩
    intro _
    simp only [Bool.or_eq_true, h.crashed_none] at hskip
    rcases hskip with hskip | hskip
    · cases hskip
    · exact hskip
  · rw [if_neg hskip]
    cases hsel : d.selected i with
    | none =>
      refine ⟨rfl, fun x hx => hx, ?_⟩
      intro hs
      cases hs
    | some conn =>
      have hup : ∀ x, d.finished x = true → Function.update d.finished i true x = true := by
        intro x hx
        by_cases hxi : x = i
        · subst hxi
          simp
        · rw [Function.update_noteq hxi]
          exact hx
      simp only
      cases hsend : sendSingleRequest (io i conn httpRequest) with
      | error err => exact ⟨rfl, hup, fun _ => by simp⟩
      | ok resp => exact ⟨rfl, hup, fun _ => by simp⟩

/-- After the events `select i` for `i` in `l`, every task of `l` below `k`
has selected, and selections and completions made before still stand. -/
theorem run_selects (io : Nat → Conn → String → Exchange) (httpRequest : String)
    (hc0 : HostConnections) (k : Nat) (hv : ValidPool hc0) (l : List Nat) :
    ∀ (d : Dispatch) (order done : List Nat), DispatchInv io httpRequest hc0 k d order done →
      (∃ order1 done1, DispatchInv io httpRequest hc0 k
        (Dispatch.run io httpRequest k d (l.map Event.select)) order1 done1) ∧
      (∀ x, (d.selected x).isSome = true →
        ((Dispatch.run io httpRequest k d (l.map Event.select)).selected x).isSome = true) ∧
      (∀ x, x ∈ l → x < k →
        ((Dispatch.run io httpRequest k d (l.map Event.select)).selected x).isSome = true) := by
  induction l with
  | nil =>
    intro d order done h
    exact ⟨⟨order, done, h⟩, fun x hx => hx, fun x hx => by cases hx⟩
  | cons a rest ih =>
    intro d order done h
    obtain ⟨order1, h1⟩ := h.step_select io httpRequest hc0 k d order done hv a
    obtain ⟨hs1, hs2, _⟩ := step_select_selected io httpRequest hc0 k d order done hv h a
    obtain ⟨hi1, hi2, hi3⟩ := ih _ order1 done h1
    simp only [List.map_cons, Dispatch.run, List.foldl_cons] at hi1 hi2 hi3 ⊢
    refine ⟨hi1, fun x hx => hi2 x (hs1 x hx), ?_⟩
    intro x hx hxk
    rcases List.mem_cons.1 hx with hxa | hxr
    · subst hxa
      exact hi2 x (hs2 hxk)
    · exact hi3 x hxr hxk

/-- After the events `finish i` for `i` in `l`, every task of `l` that had
selected has completed. -/
theorem run_finishes (io : Nat → Conn → String → Exchange) (httpRequest : String)
    (hc0 : HostConnections) (k : Nat) (hv : ValidPool hc0) (l : List Nat) :
    ∀ (d : Dispatch) (order done : List Nat), DispatchInv io httpRequest hc0 k d order done →
      (∃ order1 done1, DispatchInv io httpRequest hc0 k
        (Dispatch.run io httpRequest k d (l.map Event.finish)) order1 done1) ∧
      (∀ x, d.finished x = true →
        (Dispatch.run io httpRequest k d (l.map Event.finish)).finished x = true) ∧
      (∀ x, x ∈ l → (d.selected x).isSome = true →
        (Dispatch.run io httpRequest k d (l.map Event.finish)).finished x = true) := by
  induction l with
  | nil =>
    intro d order done h
    exact ⟨⟨order, done, h⟩, fun x hx => hx, fun x hx => by cases hx⟩
  | cons a rest ih =>
    intro d order done h
    obtain ⟨done1, h1⟩ := h.step_finish io httpRequest hc0 k d order done hv a
    obtain ⟨hs1, hs2, hs3⟩ := step_finish_finished io httpRequest hc0 k d order done h a
    obtain ⟨hi1, hi2, hi3⟩ := ih _ order done1 h1
    simp only [List.map_cons, Dispatch.run, List.foldl_cons] at hi1 hi2 hi3 ⊢
    refine ⟨hi1, fun x hx => hi2 x (hs2 x hx), ?_⟩
    intro x hx hxs
    rcases List.mem_cons.1 hx with hxa | hxr
    · subst hxa
      exact hi2 x (hs3 hxs)
    · exact hi3 x hxr (by rw [hs1]; exact hxs)

theorem Dispatch.run_append (io : Nat → Conn → String → Exchange) (httpRequest : String)
    (k : Nat) (d : Dispatch) (s1 s2 : List Event) :
    Dispatch.run io httpRequest k d (s1 ++ s2) =
      Dispatch.run io httpRequest k (Dispatch.run io httpRequest k d s1) s2 := by
  simp only [Dispatch.run, List.foldl_append]

/-- Whatever has been scheduled so far, once every task has been given its
selection and its completion the wait group is at zero and nothing has
crashed. -/
theorem run_fair_done (io : Nat → Conn → String → Exchange) (httpRequest : String)
    (hc0 : HostConnections) (k : Nat) (hv : ValidPool hc0) (sched : List Event) :
    (Dispatch.run io httpRequest k (Dispatch.init hc0 k) (sched ++ fairSchedule k)).wg = 0 ∧
    (Dispatch.run io httpRequest k (Dispatch.init hc0 k) (sched ++ fairSchedule k)).crashed
      = none := by
  obtain ⟨o1, d1, h1⟩ := DispatchInv.run io httpRequest hc0 k hv sched _ [] []
    (DispatchInv.init io httpRequest hc0 k hv)
  obtain ⟨⟨o2, d2, h2⟩, _, hsel⟩ := run_selects io httpRequest hc0 k hv (List.range k) _ o1 d1 h1
  obtain ⟨⟨o3, d3, h3⟩, _, hfin⟩ := run_finishes io httpRequest hc0 k hv (List.range k) _ o2 d2 h2
  unfold fairSchedule
  rw [Dispatch.run_append, Dispatch.run_append]
  refine ⟨?_, h3.crashed_none⟩
  have hall : ∀ x, x < k → x ∈ d3 := by
    intro x hx
    exact (h3.fin_iff x).1 (hfin x (List.mem_range.2 hx) (hsel x (List.mem_range.2 hx) hx))
  have hsub : List.range k ⊆ d3 := fun x hx => hall x (List.mem_range.1 hx)
  have hle := (List.subperm_of_subset (List.nodup_range k) hsub).length_le
  have := h3.wg_eq
  simp only [List.length_range] at hle
  omega

/-! ### What the handler reports -/

/-- What a dispatch that is past `wg.Wait()` has done and reports. -/
theorem DispatchInv.outcome_replied (io : Nat → Conn → String → Exchange)
    (httpRequest : String) (hc0 : HostConnections) (k : Nat) (d : Dispatch)
    (order done : List Nat) (hv : ValidPool hc0)
    (h : DispatchInv io httpRequest hc0 k d order done) (c : Int) (rep : Reply)
    (hout : d.outcome c = Outcome.replied rep) :
    (∀ i, i < k → d.finished i = true) ∧
    (∀ i, i < k → ∃ conn, d.selected i = some conn) ∧
    d.errChan.Perm ((List.range k).filterMap (taskError io httpRequest d.selected)) ∧
    (d.errChan = [] → rep = Reply.sent d.responses c) ∧
    (d.errChan ≠ [] →
      rep = Reply.text 500 ("部分请求失败: " ++ "; ".intercalate d.errChan ++ "\n")) ∧
    d.responses.length = k ∧
    (∀ i, i < k → d.responses[i]? = some (taskResponse io httpRequest d.selected i)) := by
  have hwg : d.wg = 0 := by
    by_contra hne
    simp only [Dispatch.outcome, h.crashed_none, ne_eq, hne, not_false_eq_true, if_true] at hout
    cases hout
  have hall := h.all_done io httpRequest hc0 k d order done hwg
  have hperm : done.Perm (List.range k) := by
    have hsub : done ⊆ List.range k :=
      fun x hx => List.mem_range.2 (h.order_lt x (h.done_sub x hx))
    have hlen : done.length = k := by
      have := h.wg_eq
      omega
    exact (List.subperm_of_subset h.done_nodup hsub).perm_of_length_le (by simp [hlen])
  refine ⟨fun i hi => (h.fin_iff i).2 (hall i hi), ?_, ?_, ?_, ?_, h.resp_len, ?_⟩
  · intro i hi
    obtain ⟨_, conn, _, hc1, _⟩ :=
      h.selected_of_mem io httpRequest hc0 k d order done hv i (h.done_sub i (hall i hi))
    exact ⟨conn, hc1⟩
  · rw [h.err_eq]
    exact hperm.filterMap _
  · intro he
    simp only [Dispatch.outcome, h.crashed_none, hwg, he, ne_eq, not_true_eq_false, if_false,
      List.length_nil, gt_iff_lt, lt_self_iff_false, Outcome.replied.injEq] at hout
    exact hout.symm
  · intro he
    have hpos : d.errChan.length > 0 := List.length_pos.2 he
    simp only [Dispatch.outcome, h.crashed_none, hwg, ne_eq, not_true_eq_false, if_false,
      hpos, if_true, Outcome.replied.injEq] at hout
    rw [← hout]
    rfl
  · intro i hi
    rw [h.resp_eq i hi, if_pos (hall i hi)]

/-- The handler replies as soon as the wait group is at zero, and a dispatch
on a valid pool never crashes. -/
theorem DispatchInv.outcome_of_wg (io : Nat → Conn → String → Exchange)
    (httpRequest : String) (hc0 : HostConnections) (k : Nat) (d : Dispatch)
    (order done : List Nat) (h : DispatchInv io httpRequest hc0 k d order done) (c : Int) :
    (∀ p, d.outcome c ≠ Outcome.crashed p) ∧
    (d.wg = 0 → ∃ rep, d.outcome c = Outcome.replied rep) := by
  refine ⟨?_, ?_⟩
  · intro p hp
    simp only [Dispatch.outcome, h.crashed_none] at hp
    split at hp
    · cases hp
    · split at hp <;> cases hp
  · intro hwg
    simp only [Dispatch.outcome, h.crashed_none, hwg, ne_eq, not_true_eq_false, if_false]
    split
    · exact ⟨_, rfl⟩
    · exact ⟨_, rfl⟩

/-- The invariant of the dispatch of a `/send` call. -/
theorem sendDispatch_inv {β : Type} (lib : Lib) (io : Nat → Conn → String → Exchange)
    (req : SendRequest β) (parsedURL : URL) (hostConns : HostConnections) (bodyBytes : String)
    (sched : List Event) (hv : ValidPool hostConns) :
    ∃ order done, DispatchInv io
      (buildRequest req.Method parsedURL (lib.mapRange req.Headers) bodyBytes) hostConns
      (clampConcurrent req.Concurrent hostConns.Connections.length).toNat
      (sendDispatch lib io req parsedURL hostConns bodyBytes sched) order done :=
  DispatchInv.run io _ hostConns _ hv sched _ [] [] (DispatchInv.init io _ hostConns _ hv)

/-- Whatever has been scheduled, the handler replies once every task has been
given its selection and its completion. -/
theorem HTTPRequestHandler_replies {β : Type} (lib : Lib)
    (io : Nat → Conn → String → Exchange) (marshal : β → Except String String) (w : World)
    (r : Request (SendRequest β)) (req : SendRequest β) (parsedURL : URL)
    (hostConns : HostConnections) (bodyBytes : String) (sched : List Event)
    (h : ReachesDispatch lib marshal w r req parsedURL hostConns bodyBytes)
    (hv : ValidPool hostConns) :
    ∃ rep, (HTTPRequestHandler lib io marshal w r
      (sched ++ fairSchedule
        (clampConcurrent req.Concurrent hostConns.Connections.length).toNat)).2 =
        Outcome.replied rep := by
  rw [HTTPRequestHandler_dispatch lib io marshal w r req parsedURL hostConns bodyBytes _ h]
  obtain ⟨order, done, hinv⟩ := sendDispatch_inv lib io req parsedURL hostConns bodyBytes
    (sched ++ fairSchedule (clampConcurrent req.Concurrent hostConns.Connections.length).toNat)
    hv
  have hwg := (run_fair_done io
    (buildRequest req.Method parsedURL (lib.mapRange req.Headers) bodyBytes) hostConns
    (clampConcurrent req.Concurrent hostConns.Connections.length).toNat hv sched).1
  exact (hinv.outcome_of_wg io _ hostConns _ _ order done _).2 hwg

/-- C5: for a `/send` call that reaches the dispatch on a valid pool, under
every schedule of its `k = clampConcurrent` tasks in which no task's exchange
fails: the call never crashes; whenever it has replied, the reply is the
success payload whose `responses` array has exactly `k` entries, whose entry
`i` is the response `sendSingleRequest` returned to task `i` on the connection
that task selected (so no entry is null) and whose `count` is `k`; and in
whatever order the tasks have run so far, the call does reply once each task
has been given its selection and its completion. -/
theorem C5_send_success_ordered {β : Type} (lib : Lib)
    (io : Nat → Conn → String → Exchange) (marshal : β → Except String String) (w : World)
    (r : Request (SendRequest β)) (req : SendRequest β) (parsedURL : URL)
    (hostConns : HostConnections) (bodyBytes : String) (sched : List Event)
    (h : ReachesDispatch lib marshal w r req parsedURL hostConns bodyBytes)
    (hv : ValidPool hostConns)
    (hok : ∀ i, i < (clampConcurrent req.Concurrent hostConns.Connections.length).toNat →
      taskError io (buildRequest req.Method parsedURL (lib.mapRange req.Headers) bodyBytes)
        (sendDispatch lib io req parsedURL hostConns bodyBytes sched).selected i = none) :
    (∀ p, (HTTPRequestHandler lib io marshal w r sched).2 ≠ Outcome.crashed p) ∧
    (∀ rep, (HTTPRequestHandler lib io marshal w r sched).2 = Outcome.replied rep →
      ∃ responses : List (Option SendResponse),
        rep = Reply.sent responses
          (clampConcurrent req.Concurrent hostConns.Connections.length) ∧
        (responses.length : Int) =
          clampConcurrent req.Concurrent hostConns.Connections.length ∧
        ∀ i, i < responses.length →
          ∃ (conn : Conn) (resp : SendResponse),
            (sendDispatch lib io req parsedURL hostConns bodyBytes sched).selected i
              = some conn ∧
            sendSingleRequest (io i conn
              (buildRequest req.Method parsedURL (lib.mapRange req.Headers) bodyBytes))
              = Except.ok resp ∧
            responses[i]? = some (some resp)) ∧
    (∃ rep, (HTTPRequestHandler lib io marshal w r
      (sched ++ fairSchedule
        (clampConcurrent req.Concurrent hostConns.Connections.length).toNat)).2 =
        Outcome.replied rep) := by
  obtain ⟨order, done, hinv⟩ :=
    sendDispatch_inv lib io req parsedURL hostConns bodyBytes sched hv
  have hk := clampConcurrent_toNat_le req.Concurrent hostConns.Connections.length hv.1
  refine ⟨?_, ?_,
    HTTPRequestHandler_replies lib io marshal w r req parsedURL hostConns bodyBytes sched h hv⟩
  · rw [HTTPRequestHandler_dispatch lib io marshal w r req parsedURL hostConns bodyBytes _ h]
    exact (hinv.outcome_of_wg io _ hostConns _ _ order done _).1
  · intro rep hrep
    rw [HTTPRequestHandler_dispatch lib io marshal w r req parsedURL hostConns bodyBytes _ h]
      at hrep
    obtain ⟨_, hsel, hperm, hnil, _, hlen, hresp⟩ :=
      hinv.outcome_replied io _ hostConns _ _ order done hv _ rep hrep
    have hempty : (sendDispatch lib io req parsedURL hostConns bodyBytes sched).errChan = [] := by
      have hnone : (List.range
          (clampConcurrent req.Concurrent hostConns.Connections.length).toNat).filterMap
          (taskError io (buildRequest req.Method parsedURL (lib.mapRange req.Headers) bodyBytes)
            (sendDispatch lib io req parsedURL hostConns bodyBytes sched).selected) = [] := by
        rw [List.filterMap_eq_nil_iff]
        intro i hi
        exact hok i (List.mem_range.1 hi)
      rw [hnone] at hperm
      exact List.Perm.eq_nil hperm
    refine ⟨_, hnil hempty, ?_, ?_⟩
    · rw [hlen]
      omega
    · intro i hi
      rw [hlen] at hi
      obtain ⟨conn, hconn⟩ := hsel i hi
      have herr := hok i hi
      have hr := hresp i hi
      simp only [taskError, hconn] at herr
      simp only [taskResponse, hconn] at hr
      cases hsend : sendSingleRequest (io i conn
          (buildRequest req.Method parsedURL (lib.mapRange req.Headers) bodyBytes)) with
      | error err =>
        rw [hsend] at herr
        cases herr
      | ok resp =>
        rw [hsend] at hr
        exact ⟨conn, resp, hconn, hsend, hr⟩

/-- C5 on a pool of two echoing connections with `concurrent = 2`, when task 1
selects and completes before task 0: entry 0 is the response of task 0 and
entry 1 the response of task 1. -/
theorem C5_send_success_ordered_witness :
    (HTTPRequestHandler libAllDialsOk ioEcho Except.ok worldWithPool sendTwo
        scheduleOneFirst).2 =
      Outcome.replied (Reply.sent
        [some ⟨200, [], "task 0 on connection 0", "1ms"⟩,
         some ⟨200, [], "task 1 on connection 1", "1ms"⟩] 2) ∧
    ∀ p, (HTTPRequestHandler libAllDialsOk ioEcho Except.ok worldWithPool sendTwo
        scheduleOneFirst).2 ≠ Outcome.crashed p :=
  ⟨by decide,
    (C5_send_success_ordered libAllDialsOk ioEcho Except.ok worldWithPool sendTwo
      ⟨"http://127.0.0.1:9999/echo", "POST", [], "{}", 2⟩ ⟨"http", "127.0.0.1:9999", "/echo", ""⟩
      ⟨[⟨0⟩, ⟨1⟩], 0⟩ "{}" scheduleOneFirst
      ⟨rfl, rfl, by decide, rfl, by decide, by decide, rfl⟩ (by decide)
      (by
        intro i _
        unfold taskError
        split
        · rfl
        · rfl)).1⟩

/-- C6: for a `/send` call that reaches the dispatch on a valid pool, under
every schedule of its `k = clampConcurrent` tasks: the call never crashes;
whenever it has replied, each of the `k` tasks has completed, and if the
exchange of at least one task failed the reply is status 500 with the single
text made of the failure messages of the failed tasks, one message per failed
task, joined by `"; "` (so it is not the success payload); and in whatever
order the tasks have run so far, the call does reply once each task has been
given its selection and its completion. -/
theorem C6_send_failure_aggregated {β : Type} (lib : Lib)
    (io : Nat → Conn → String → Exchange) (marshal : β → Except String String) (w : World)
    (r : Request (SendRequest β)) (req : SendRequest β) (parsedURL : URL)
    (hostConns : HostConnections) (bodyBytes : String) (sched : List Event)
    (h : ReachesDispatch lib marshal w r req parsedURL hostConns bodyBytes)
    (hv : ValidPool hostConns) :
    (∀ p, (HTTPRequestHandler lib io marshal w r sched).2 ≠ Outcome.crashed p) ∧
    (∀ rep, (HTTPRequestHandler lib io marshal w r sched).2 = Outcome.replied rep →
      (∀ i, i < (clampConcurrent req.Concurrent hostConns.Connections.length).toNat →
        (sendDispatch lib io req parsedURL hostConns bodyBytes sched).finished i = true) ∧
      ((∃ i, i < (clampConcurrent req.Concurrent hostConns.Connections.length).toNat ∧
          taskError io (buildRequest req.Method parsedURL (lib.mapRange req.Headers) bodyBytes)
            (sendDispatch lib io req parsedURL hostConns bodyBytes sched).selected i ≠ none) →
        ∃ msgs : List String,
          msgs.Perm
            ((List.range
              (clampConcurrent req.Concurrent hostConns.Connections.length).toNat).filterMap
              (taskError io
                (buildRequest req.Method parsedURL (lib.mapRange req.Headers) bodyBytes)
                (sendDispatch lib io req parsedURL hostConns bodyBytes sched).selected)) ∧
          rep = Reply.text 500 ("部分请求失败: " ++ "; ".intercalate msgs ++ "\n"))) ∧
    (∃ rep, (HTTPRequestHandler lib io marshal w r
      (sched ++ fairSchedule
        (clampConcurrent req.Concurrent hostConns.Connections.length).toNat)).2 =
        Outcome.replied rep) := by
  obtain ⟨order, done, hinv⟩ :=
    sendDispatch_inv lib io req parsedURL hostConns bodyBytes sched hv
  refine ⟨?_, ?_,
    HTTPRequestHandler_replies lib io marshal w r req parsedURL hostConns bodyBytes sched h hv⟩
  · rw [HTTPRequestHandler_dispatch lib io marshal w r req parsedURL hostConns bodyBytes _ h]
    exact (hinv.outcome_of_wg io _ hostConns _ _ order done _).1
  · intro rep hrep
    rw [HTTPRequestHandler_dispatch lib io marshal w r req parsedURL hostConns bodyBytes _ h]
      at hrep
    obtain ⟨hfin, _, hperm, _, hne, _, _⟩ :=
      hinv.outcome_replied io _ hostConns _ _ order done hv _ rep hrep
    refine ⟨hfin, ?_⟩
    rintro ⟨i, hi, hfail⟩
    refine ⟨_, hperm, hne ?_⟩
    intro hempty
    rw [hempty] at hperm
    have hnil := List.Perm.eq_nil hperm.symm
    rw [List.filterMap_eq_nil_iff] at hnil
    exact hfail (hnil i (List.mem_range.2 hi))

/-- C6 on a pool of two connections with `concurrent = 2` when the write of
task 1 fails: the reply is 500 with the message of task 1, and before both
tasks have completed there is no reply. -/
theorem C6_send_failure_aggregated_witness :
    (HTTPRequestHandler libAllDialsOk ioTaskOneFails Except.ok worldWithPool sendTwo
        scheduleOneFirst).2 =
      Outcome.replied (Reply.text 500 "部分请求失败: 发送请求失败: broken pipe\n") ∧
    (HTTPRequestHandler libAllDialsOk ioTaskOneFails Except.ok worldWithPool sendTwo
        [Event.select 1, Event.finish 1, Event.select 0]).2 = Outcome.waiting ∧
    ∀ p, (HTTPRequestHandler libAllDialsOk ioTaskOneFails Except.ok worldWithPool sendTwo
        scheduleOneFirst).2 ≠ Outcome.crashed p :=
  ⟨by decide, by decide,
    (C6_send_failure_aggregated libAllDialsOk ioTaskOneFails Except.ok worldWithPool sendTwo
      ⟨"http://127.0.0.1:9999/echo", "POST", [], "{}", 2⟩ ⟨"http", "127.0.0.1:9999", "/echo", ""⟩
      ⟨[⟨0⟩, ⟨1⟩], 0⟩ "{}" scheduleOneFirst
      ⟨rfl, rfl, by decide, rfl, by decide, by decide, rfl⟩ (by decide)).1⟩

/-- C3 on a pool of three distinct connections with `concurrent = 5`: the
three tasks, selecting in the order 2, 0, 1, hold three different
connections. -/
theorem C3_dispatch_connections_distinct_witness :
    (selectMany (clampConcurrent 5 3).toNat ⟨[⟨10⟩, ⟨11⟩, ⟨12⟩], 1⟩).2 = [⟨12⟩, ⟨10⟩, ⟨11⟩] ∧
    (selectMany
      (clampConcurrent 5 (HostConnections.mk [⟨10⟩, ⟨11⟩, ⟨12⟩] 1).Connections.length).toNat
      ⟨[⟨10⟩, ⟨11⟩, ⟨12⟩], 1⟩).2.Nodup :=
  ⟨by decide,
    (C3_dispatch_connections_distinct ioEcho "" ⟨[⟨10⟩, ⟨11⟩, ⟨12⟩], 1⟩ 5
      [Event.select 2, Event.select 0, Event.select 1] (by decide) (by decide)).2.1⟩

/-! ## `/connect` -/

theorem freshConns_succ_left (w : World) (host : String) (m : Nat) :
    freshConns w (m + 1) =
      Conn.mk w.dialed.length :: freshConns { w with dialed := w.dialed ++ [host] } m := by
  unfold freshConns
  rw [List.range_succ_eq_map, List.map_cons, List.map_map]
  simp only [Nat.add_zero, List.cons.injEq, true_and, List.length_append, List.length_singleton]
  apply List.map_congr_left
  intro j _
  simp only [Function.comp, Nat.succ_eq_add_one, Conn.mk.injEq]
  omega

/-- The dial loop when its dial number `m` (from 0) is the first to fail. -/
theorem dialLoop_fail (lib : Lib) (host : String) (e : String) (m : Nat) :
    ∀ (remaining : Nat) (i : Int) (w : World) (conns : List Conn), m < remaining →
      (∀ j, j < m → lib.dialError (w.dialed.length + j) host = none) →
      lib.dialError (w.dialed.length + m) host = some e →
      dialLoop lib host remaining i w conns =
        ({ w with dialed := w.dialed ++ List.replicate (m + 1) host,
                  closed := w.closed ++ (conns ++ freshConns w m) },
          Except.error
            (httpError ("创建第" ++ toString (i + (m : Int) + 1) ++ "个连接失败: " ++ e) 500)) := by
  induction m with
  | zero =>
    intro remaining i w conns hr _ hfail
    obtain ⟨r, rfl⟩ : ∃ r, remaining = r + 1 := ⟨remaining - 1, by omega⟩
    simp only [Nat.add_zero] at hfail
    simp [dialLoop, netDial, hfail, closeAll, freshConns]
  | succ m ih =>
    intro remaining i w conns hr hok hfail
    obtain ⟨r, rfl⟩ : ∃ r, remaining = r + 1 := ⟨remaining - 1, by omega⟩
    have h0 : lib.dialError w.dialed.length host = none := by
      simpa using hok 0 (Nat.succ_pos _)
    have hlen : ({ w with dialed := w.dialed ++ [host] } : World).dialed.length
        = w.dialed.length + 1 := by simp
    rw [dialLoop]
    simp only [netDial, h0]
    rw [ih r (i + 1) { w with dialed := w.dialed ++ [host] } (conns ++ [Conn.mk w.dialed.length])
      (by omega)
      (by
        intro j hj
        rw [hlen]
        have := hok (j + 1) (by omega)
        rwa [show w.dialed.length + (j + 1) = w.dialed.length + 1 + j by omega] at this)
      (by
        rw [hlen]
        rwa [show w.dialed.length + (m + 1) = w.dialed.length + 1 + m by omega] at hfail)]
    rw [freshConns_succ_left w host m]
    simp only [List.append_assoc, List.singleton_append, List.replicate_succ, Nat.cast_add,
      Nat.cast_one, Prod.mk.injEq, true_and]
    congr 6
    ring

/-- The dial loop when all its dials succeed. -/
theorem dialLoop_ok (lib : Lib) (host : String) :
    ∀ (remaining : Nat) (i : Int) (w : World) (conns : List Conn),
      (∀ j, j < remaining → lib.dialError (w.dialed.length + j) host = none) →
      dialLoop lib host remaining i w conns =
        ({ w with dialed := w.dialed ++ List.replicate remaining host },
          Except.ok (conns ++ freshConns w remaining)) := by
  intro remaining
  induction remaining with
  | zero =>
    intro i w conns _
    simp [dialLoop, freshConns]
  | succ r ih =>
    intro i w conns hok
    have h0 : lib.dialError w.dialed.length host = none := by
      simpa using hok 0 (Nat.succ_pos _)
    have hlen : ({ w with dialed := w.dialed ++ [host] } : World).dialed.length
        = w.dialed.length + 1 := by simp
    rw [dialLoop]
    simp only [netDial, h0]
    rw [ih (i + 1) { w with dialed := w.dialed ++ [host] } (conns ++ [Conn.mk w.dialed.length])
      (by
        intro j hj
        rw [hlen]
        have := hok (j + 1) (by omega)
        rwa [show w.dialed.length + (j + 1) = w.dialed.length + 1 + j by omega] at this)]
    rw [freshConns_succ_left w host r]
    simp [List.replicate_succ]

theorem mem_freshConns (w : World) (m : Nat) (c : Conn) :
    c ∈ freshConns w m ↔ w.dialed.length ≤ c.id ∧ c.id < w.dialed.length + m := by
  unfold freshConns
  simp only [List.mem_map, List.mem_range]
  constructor
  · rintro ⟨j, hj, rfl⟩
    exact ⟨Nat.le_add_right _ _, by simp only; omega⟩
  · rintro ⟨h1, h2⟩
    refine ⟨c.id - w.dialed.length, by omega, ?_⟩
    cases c with
    | mk id =>
      simp only [Conn.mk.injEq] at h1 h2 ⊢
      omega

theorem normalizeCount_eq (count : Int) : normalizeCount count = max count 1 := by
  unfold normalizeCount
  by_cases h : count ≤ 0
  · rw [if_pos h, max_eq_right (by omega)]
  · rw [if_neg h, max_eq_left (by omega)]

theorem TCPConnectionHandler_fail (lib : Lib) (w : World) (r : Request ConnectRequest)
    (req : ConnectRequest) (parsedURL : URL) (m : Nat) (e : String)
    (h : ReachesDial lib r req parsedURL) (hm : m < (normalizeCount req.Count).toNat)
    (hok : ∀ j, j < m → lib.dialError (w.dialed.length + j) (connectHost parsedURL) = none)
    (hfail : lib.dialError (w.dialed.length + m) (connectHost parsedURL) = some e) :
    TCPConnectionHandler lib w r =
      ({ w with dialed := w.dialed ++ List.replicate (m + 1) (connectHost parsedURL),
                closed := w.closed ++ freshConns w m },
        GoResult.ret
          (httpError ("创建第" ++ toString ((m : Int) + 1) ++ "个连接失败: " ++ e) 500)) := by
  obtain ⟨h1, h2, h3, h4, h5⟩ := h
  unfold TCPConnectionHandler
  simp only [h1, h2, h3, h4, ne_eq, not_true_eq_false, if_false, ite_false]
  rw [if_neg (not_lt.2 h5), dialLoop_fail lib (connectHost parsedURL) e m _ 0 w [] hm hok hfail]
  simp

theorem TCPConnectionHandler_ok (lib : Lib) (w : World) (r : Request ConnectRequest)
    (req : ConnectRequest) (parsedURL : URL) (h : ReachesDial lib r req parsedURL)
    (hok : ∀ j, j < (normalizeCount req.Count).toNat →
      lib.dialError (w.dialed.length + j) (connectHost parsedURL) = none) :
    TCPConnectionHandler lib w r =
      (storePool
          { w with dialed := w.dialed ++
              List.replicate (normalizeCount req.Count).toNat (connectHost parsedURL) }
          (connectHost parsedURL)
          { Connections := freshConns w (normalizeCount req.Count).toNat, lastUsed := 0 },
        GoResult.ret (Reply.connected
          ("已建立 " ++ toString (normalizeCount req.Count) ++ " 个TCP连接到 "
            ++ connectHost parsedURL)
          "success" (normalizeCount req.Count))) := by
  obtain ⟨h1, h2, h3, h4, h5⟩ := h
  unfold TCPConnectionHandler
  simp only [h1, h2, h3, h4, ne_eq, not_true_eq_false, if_false, ite_false]
  rw [if_neg (not_lt.2 h5), dialLoop_ok lib (connectHost parsedURL) _ 0 w [] hok]
  simp

/-- A `/connect` call whose normalized count exceeds `maxConnCap` panics in
the allocation of its slice: it makes no dial, changes nothing and sends no
reply. -/
theorem TCPConnectionHandler_makeslice_panic (lib : Lib) (w : World)
    (r : Request ConnectRequest) (req : ConnectRequest) (parsedURL : URL)
    (h1 : r.Method = "POST") (h2 : r.decoded = Except.ok req) (h3 : req.TargetURL ≠ "")
    (h4 : lib.urlParse req.TargetURL = Except.ok parsedURL)
    (h5 : maxConnCap < normalizeCount req.Count) :
    TCPConnectionHandler lib w r = (w, GoResult.panic RuntimePanic.makesliceCapOutOfRange) := by
  unfold TCPConnectionHandler
  simp only [h1, h2, h3, h4, ne_eq, not_true_eq_false, if_false, ite_false]
  rw [if_pos h5]

/-- A `/connect` call that passes the checks and makes at least one dial, or
that sends any reply, has got to its dial loop: the bound on the count in
`ReachesDial` holds of every call in which a dial is made. -/
theorem reachesDial_of_dialed (lib : Lib) (w : World) (r : Request ConnectRequest)
    (req : ConnectRequest) (parsedURL : URL)
    (h1 : r.Method = "POST") (h2 : r.decoded = Except.ok req) (h3 : req.TargetURL ≠ "")
    (h4 : lib.urlParse req.TargetURL = Except.ok parsedURL)
    (hd : (TCPConnectionHandler lib w r).1.dialed ≠ w.dialed ∨
      ∃ reply, (TCPConnectionHandler lib w r).2 = GoResult.ret reply) :
    ReachesDial lib r req parsedURL := by
  refine ⟨h1, h2, h3, h4, ?_⟩
  by_contra hcap
  have hp := TCPConnectionHandler_makeslice_panic lib w r req parsedURL h1 h2 h3 h4
    (not_le.1 hcap)
  rw [hp] at hd
  rcases hd with hd | ⟨reply, hd⟩
  · exact hd rfl
  · cases hd

/-- A `/connect` request with `count = 2^62` panics before any dial, whatever
the dials would do. -/
theorem TCPConnectionHandler_huge_count :
    (TCPConnectionHandler libAllDialsOk freshWorld
        ⟨"POST", Except.ok ⟨"http://127.0.0.1:9999", 2 ^ 62⟩⟩).2 =
      GoResult.panic RuntimePanic.makesliceCapOutOfRange ∧
    (TCPConnectionHandler libAllDialsOk freshWorld
        ⟨"POST", Except.ok ⟨"http://127.0.0.1:9999", 2 ^ 62⟩⟩).1.dialed = [] ∧
    ¬ ReachesDial libAllDialsOk ⟨"POST", Except.ok ⟨"http://127.0.0.1:9999", 2 ^ 62⟩⟩
      ⟨"http://127.0.0.1:9999", 2 ^ 62⟩ ⟨"http", "127.0.0.1:9999", "/echo", ""⟩ := by
  have h := TCPConnectionHandler_makeslice_panic libAllDialsOk freshWorld
    ⟨"POST", Except.ok ⟨"http://127.0.0.1:9999", 2 ^ 62⟩⟩ ⟨"http://127.0.0.1:9999", 2 ^ 62⟩
    ⟨"http", "127.0.0.1:9999", "/echo", ""⟩ rfl rfl (by decide) rfl (by decide)
  refine ⟨by rw [h], by rw [h]; rfl, ?_⟩
  rintro ⟨_, _, _, _, h5⟩
  exact absurd h5 (by decide)

/-- C7: when dial number `m + 1` of a `/connect` call that gets to its dial
loop (`m + 1` at most the normalized count) is the first to fail, the call
closes exactly the `m` connections its earlier dials opened, makes no further dial (`m + 1` dials in
all), leaves the registry as it was (no pool is installed, an existing pool
is not replaced), writes nothing, replies 500 with a text that names attempt
`m + 1` and carries the dial error, and closes no connection dialled before
the call, so none of an existing pool. -/
theorem C7_dial_failure_rolls_back (lib : Lib) (w : World) (r : Request ConnectRequest)
    (req : ConnectRequest) (parsedURL : URL) (m : Nat) (e : String)
    (h : ReachesDial lib r req parsedURL) (hm : m < (normalizeCount req.Count).toNat)
    (hok : ∀ j, j < m → lib.dialError (w.dialed.length + j) (connectHost parsedURL) = none)
    (hfail : lib.dialError (w.dialed.length + m) (connectHost parsedURL) = some e) :
    (TCPConnectionHandler lib w r).1.closed = w.closed ++ freshConns w m ∧
    (TCPConnectionHandler lib w r).1.dialed =
      w.dialed ++ List.replicate (m + 1) (connectHost parsedURL) ∧
    (TCPConnectionHandler lib w r).1.connections = w.connections ∧
    (TCPConnectionHandler lib w r).1.written = w.written ∧
    (TCPConnectionHandler lib w r).2 =
      GoResult.ret
        (Reply.text 500 ("创建第" ++ toString ((m : Int) + 1) ++ "个连接失败: " ++ e ++ "\n")) ∧
    (∀ c : Conn, c.id < w.dialed.length →
      (c ∈ (TCPConnectionHandler lib w r).1.closed ↔ c ∈ w.closed)) := by
  rw [TCPConnectionHandler_fail lib w r req parsedURL m e h hm hok hfail]
  refine ⟨rfl, rfl, rfl, rfl, rfl, ?_⟩
  intro c hc
  simp only [List.mem_append]
  constructor
  · rintro (h1 | h1)
    · exact h1
    · have := (mem_freshConns w m c).1 h1
      omega
  · exact Or.inl

/-- C7 at `count = 3` when the third dial is refused: connections 0 and 1 are
closed, three dials were made, the registry is still empty and the reply names
attempt 3. -/
theorem C7_dial_failure_rolls_back_witness :
    (TCPConnectionHandler libThirdDialRefused freshWorld connectThree).1.closed = [⟨0⟩, ⟨1⟩] ∧
    (TCPConnectionHandler libThirdDialRefused freshWorld connectThree).1.dialed =
      ["127.0.0.1:9999", "127.0.0.1:9999", "127.0.0.1:9999"] ∧
    (TCPConnectionHandler libThirdDialRefused freshWorld connectThree).1.connections
      "127.0.0.1:9999" = none ∧
    (TCPConnectionHandler libThirdDialRefused freshWorld connectThree).2 =
      GoResult.ret (Reply.text 500 "创建第3个连接失败: connection refused\n") := by
  have h := C7_dial_failure_rolls_back libThirdDialRefused freshWorld connectThree
    ⟨"http://127.0.0.1:9999", 3⟩ ⟨"http", "127.0.0.1:9999", "/echo", ""⟩ 2 "connection refused"
    ⟨rfl, rfl, by decide, rfl, by decide⟩ (by decide) (by decide) (by decide)
  refine ⟨h.1.trans (by decide), h.2.1.trans (by decide), ?_, h.2.2.2.2.1.trans (by decide)⟩
  rw [h.2.2.1]
  rfl

/-- C8: a `/connect` call that gets to its dial loop and whose dials all
succeed, made when the registry holds the pool `old` for the host, closes exactly the connections of `old`
(each of them, and nothing else), maps the host to the pool of the newly
dialled connections, which shares no connection with `old` when the
connections of `old` are objects dialled earlier, and leaves the entry of
every other host as it was; a connection of another host's pool that is not
in `old` is closed after the call only if it was closed before. -/
theorem C8_open_replaces_pool (lib : Lib) (w : World) (r : Request ConnectRequest)
    (req : ConnectRequest) (parsedURL : URL) (old : HostConnections)
    (h : ReachesDial lib r req parsedURL)
    (hok : ∀ j, j < (normalizeCount req.Count).toNat →
      lib.dialError (w.dialed.length + j) (connectHost parsedURL) = none)
    (hold : w.connections (connectHost parsedURL) = some old) :
    (TCPConnectionHandler lib w r).1.closed = w.closed ++ old.Connections ∧
    (∀ c ∈ old.Connections, c ∈ (TCPConnectionHandler lib w r).1.closed) ∧
    (TCPConnectionHandler lib w r).1.connections (connectHost parsedURL) =
      some { Connections := freshConns w (normalizeCount req.Count).toNat, lastUsed := 0 } ∧
    ((∀ c ∈ old.Connections, c.id < w.dialed.length) →
      ∀ c ∈ old.Connections, c ∉ freshConns w (normalizeCount req.Count).toNat) ∧
    (∀ other : String, other ≠ connectHost parsedURL →
      (TCPConnectionHandler lib w r).1.connections other = w.connections other) ∧
    (∀ (other : String) (p : HostConnections), other ≠ connectHost parsedURL →
      w.connections other = some p → ∀ c ∈ p.Connections, c ∉ old.Connections →
        (c ∈ (TCPConnectionHandler lib w r).1.closed ↔ c ∈ w.closed)) := by
  rw [TCPConnectionHandler_ok lib w r req parsedURL h hok]
  have hcl : (storePool
      { w with dialed := w.dialed ++
          List.replicate (normalizeCount req.Count).toNat (connectHost parsedURL) }
      (connectHost parsedURL)
      { Connections := freshConns w (normalizeCount req.Count).toNat, lastUsed := 0 }).closed
      = w.closed ++ old.Connections := by
    simp [storePool, hold, closeAll]
  have hreg : (storePool
      { w with dialed := w.dialed ++
          List.replicate (normalizeCount req.Count).toNat (connectHost parsedURL) }
      (connectHost parsedURL)
      { Connections := freshConns w (normalizeCount req.Count).toNat, lastUsed := 0 }).connections
      = Function.update w.connections (connectHost parsedURL)
          (some { Connections := freshConns w (normalizeCount req.Count).toNat,
                  lastUsed := 0 }) := by
    simp [storePool, hold, closeAll]
  refine ⟨hcl, ?_, ?_, ?_, ?_, ?_⟩
  · intro c hc
    simp only [hcl]
    exact List.mem_append_right _ hc
  · simp only [hreg, Function.update_same]
  · intro hfresh c hc hmem
    have := (mem_freshConns w _ c).1 hmem
    have := hfresh c hc
    omega
  · intro other hne
    simp only [hreg]
    exact Function.update_noteq hne _ _
  · intro other p _ _ c _ hnot
    simp only [hcl, List.mem_append]
    constructor
    · rintro (h1 | h1)
      · exact h1
      · exact absurd h1 hnot
    · exact Or.inl

/-- C8 at a registry that holds connections 0 and 1 for `127.0.0.1:9999`: a
`/connect` with `count = 3` closes 0 and 1 and installs 2, 3 and 4. -/
theorem C8_open_replaces_pool_witness :
    (TCPConnectionHandler libAllDialsOk worldWithPool connectThree).1.closed = [⟨0⟩, ⟨1⟩] ∧
    (TCPConnectionHandler libAllDialsOk worldWithPool connectThree).1.connections
      "127.0.0.1:9999" = some { Connections := [⟨2⟩, ⟨3⟩, ⟨4⟩], lastUsed := 0 } := by
  have h := C8_open_replaces_pool libAllDialsOk worldWithPool connectThree
    ⟨"http://127.0.0.1:9999", 3⟩ ⟨"http", "127.0.0.1:9999", "/echo", ""⟩
    { Connections := [⟨0⟩, ⟨1⟩], lastUsed := 0 }
    ⟨rfl, rfl, by decide, rfl, by decide⟩ (by decide) (by decide)
  exact ⟨h.1.trans (by decide), h.2.2.1.trans (by decide)⟩

/-- C9: a `/connect` call that gets to its dial loop and whose dials all
succeed installs for the host a pool of exactly `max count 1` connections (the objects its dials returned)
with cursor 0, and replies with status `success` and a `count` equal to the
number of connections of the installed pool. -/
theorem C9_open_installs_count (lib : Lib) (w : World) (r : Request ConnectRequest)
    (req : ConnectRequest) (parsedURL : URL) (h : ReachesDial lib r req parsedURL)
    (hok : ∀ j, j < (normalizeCount req.Count).toNat →
      lib.dialError (w.dialed.length + j) (connectHost parsedURL) = none) :
    ∃ pool : HostConnections,
      (TCPConnectionHandler lib w r).1.connections (connectHost parsedURL) = some pool ∧
      (pool.Connections.length : Int) = max req.Count 1 ∧
      pool.lastUsed = 0 ∧
      pool.Connections = freshConns w (max req.Count 1).toNat ∧
      (TCPConnectionHandler lib w r).2 =
        GoResult.ret (Reply.connected
          ("已建立 " ++ toString (max req.Count 1) ++ " 个TCP连接到 " ++ connectHost parsedURL)
          "success" (pool.Connections.length : Int)) := by
  rw [TCPConnectionHandler_ok lib w r req parsedURL h hok]
  have hlen : ((freshConns w (normalizeCount req.Count).toNat).length : Int)
      = normalizeCount req.Count := by
    have h1 : 1 ≤ normalizeCount req.Count := by
      rw [normalizeCount_eq]; exact le_max_right _ _
    simp only [freshConns, List.length_map, List.length_range]
    omega
  refine ⟨{ Connections := freshConns w (normalizeCount req.Count).toNat, lastUsed := 0 },
    ?_, ?_, rfl, ?_, ?_⟩
  · cases hreg : w.connections (connectHost parsedURL) <;>
      simp [storePool, hreg, closeAll]
  · rw [hlen, normalizeCount_eq]
  · rw [normalizeCount_eq]
  · simp only [hlen]
    rw [normalizeCount_eq]

/-- C9 at `count = 0` on a process that has not dialled: one connection is
installed and the reply carries `count = 1`. -/
theorem C9_open_installs_count_witness :
    (TCPConnectionHandler libAllDialsOk freshWorld
        ⟨"POST", Except.ok ⟨"http://127.0.0.1:9999", 0⟩⟩).1.connections "127.0.0.1:9999" =
      some { Connections := [⟨0⟩], lastUsed := 0 } ∧
    ∃ pool : HostConnections,
      (TCPConnectionHandler libAllDialsOk freshWorld
        ⟨"POST", Except.ok ⟨"http://127.0.0.1:9999", 0⟩⟩).1.connections
          (connectHost ⟨"http", "127.0.0.1:9999", "/echo", ""⟩) = some pool ∧
      (pool.Connections.length : Int) = max 0 1 := by
  obtain ⟨pool, h1, h2, _⟩ := C9_open_installs_count libAllDialsOk freshWorld
    ⟨"POST", Except.ok ⟨"http://127.0.0.1:9999", 0⟩⟩
    ⟨"http://127.0.0.1:9999", 0⟩ ⟨"http", "127.0.0.1:9999", "/echo", ""⟩
    ⟨rfl, rfl, by decide, rfl, by decide⟩ (by decide)
  exact ⟨by decide, pool, h1, h2⟩

/-! ## The lookup of `/send` -/

/-- C11: a `/send` request that passes the checks before the lookup and whose
registry key has no pool, or a pool without connections, is answered with
status 400 whatever the serialiser, the sockets and the scheduler would do:
no request text is built, no connection is selected, nothing is written, and
the process state (registry, every cursor, the dial, close and write logs) is
the one before the call. -/
theorem C11_send_without_pool {β : Type} (lib : Lib) (io : Nat → Conn → String → Exchange)
    (marshal : β → Except String String) (w : World) (r : Request (SendRequest β))
    (req : SendRequest β) (parsedURL : URL) (sched : List Event)
    (h1 : r.Method = "POST") (h2 : r.decoded = Except.ok req) (h3 : req.TargetURL ≠ "")
    (h4 : lib.urlParse req.TargetURL = Except.ok parsedURL)
    (h5 : w.connections (sendHost parsedURL) = none ∨
      ∃ hc, w.connections (sendHost parsedURL) = some hc ∧ hc.Connections.length = 0) :
    HTTPRequestHandler lib io marshal w r sched =
        (w, Outcome.replied (Reply.text 400 "未找到已建立的连接\n")) ∧
    (HTTPRequestHandler lib io marshal w r sched).1.connections = w.connections ∧
    (HTTPRequestHandler lib io marshal w r sched).1.written = w.written ∧
    (HTTPRequestHandler lib io marshal w r sched).1.closed = w.closed ∧
    (HTTPRequestHandler lib io marshal w r sched).1.dialed = w.dialed := by
  have hmain : HTTPRequestHandler lib io marshal w r sched =
      (w, Outcome.replied (Reply.text 400 "未找到已建立的连接\n")) := by
    unfold HTTPRequestHandler
    rcases h5 with h5 | ⟨hc, h5, h6⟩
    · simp only [h1, h2, h3, h4, h5, ne_eq, not_true_eq_false, if_false]
      rfl
    · simp only [h1, h2, h3, h4, h5, h6, ne_eq, not_true_eq_false, if_false, if_true]
      rfl
  rw [hmain]
  exact ⟨rfl, rfl, rfl, rfl, rfl⟩

/-- C11 on a process whose registry is empty. -/
theorem C11_send_without_pool_witness :
    HTTPRequestHandler libAllDialsOk ioEcho Except.ok freshWorld sendTwo scheduleOneFirst =
      (freshWorld, Outcome.replied (Reply.text 400 "未找到已建立的连接\n")) :=
  (C11_send_without_pool libAllDialsOk ioEcho Except.ok freshWorld sendTwo
    ⟨"http://127.0.0.1:9999/echo", "POST", [], "{}", 2⟩ ⟨"http", "127.0.0.1:9999", "/echo", ""⟩
    scheduleOneFirst rfl rfl (by decide) rfl (Or.inl (by decide))).1

/-! ## The registry keys of `/connect` and `/send` -/

theorem tails_any_colon (l : List Char) :
    l.tails.any (fun t => [':'].isPrefixOf t) = true ↔ ':' ∈ l := by
  induction l with
  | nil => simp [List.isPrefixOf]
  | cons c rest ih =>
    have hp : ([':'].isPrefixOf (c :: rest)) = (':' == c) := by
      cases rest <;> simp [List.isPrefixOf]
    rw [List.tails, List.any_cons, Bool.or_eq_true, ih, List.mem_cons, hp, beq_iff_eq]

theorem stringsContains_colon (s : String) :
    stringsContains s ":" = true ↔ ':' ∈ s.data := by
  unfold stringsContains
  exact tails_any_colon s.data

theorem fromLastColon_none (l : List Char) (h : ':' ∉ l) : fromLastColon l = none := by
  induction l with
  | nil => rfl
  | cons c rest ih =>
    have h1 : ':' ∉ rest := fun hm => h (List.mem_cons_of_mem _ hm)
    have h2 : c ≠ ':' := fun hc => h (hc ▸ List.mem_cons_self _ _)
    simp [fromLastColon, ih h1, h2]

/-- Method `Port` yields the empty string on a host without colon. -/
theorem port_of_no_colon (u : URL) (h : stringsContains u.Host ":" = false) : u.Port = "" := by
  have hn : ':' ∉ u.Host.data := by
    intro hm
    rw [(stringsContains_colon u.Host).2 hm] at h
    cases h
  simp [URL.Port, fromLastColon_none _ hn]

theorem append_colon_ne (host : String) : host ++ ":" ≠ host ++ ":80" := by
  intro h
  have := congrArg String.length h
  simp only [String.length_append] at this
  have h1 : (":" : String).length = 1 := by decide
  have h2 : (":80" : String).length = 3 := by decide
  omega

/-- C20 fails on the code: for `http://127.0.0.1/echo` (scheme http, no
explicit port) `/connect` registers the pool under `127.0.0.1:80` while `/send`
looks it up under `127.0.0.1:`, so a `/send` issued right after the successful
`/connect` with the same target is answered 400.  The two keys differ for
every host without colon whose scheme is not https, and agree for every other
URL. -/
theorem C20_send_key_differs_without_port :
    connectHost ⟨"http", "127.0.0.1", "/echo", ""⟩ = "127.0.0.1:80" ∧
    sendHost ⟨"http", "127.0.0.1", "/echo", ""⟩ = "127.0.0.1:" ∧
    (TCPConnectionHandler libNoPort freshWorld connectNoPort).2 =
      GoResult.ret (Reply.connected "已建立 1 个TCP连接到 127.0.0.1:80" "success" 1) ∧
    (TCPConnectionHandler libNoPort freshWorld connectNoPort).1.connections "127.0.0.1:80" =
      some { Connections := [⟨0⟩], lastUsed := 0 } ∧
    (HTTPRequestHandler libNoPort ioEcho Except.ok
        (TCPConnectionHandler libNoPort freshWorld connectNoPort).1 sendNoPort
        [Event.select 0, Event.finish 0]).2 =
      Outcome.replied (Reply.text 400 "未找到已建立的连接\n") ∧
    (∀ u : URL, stringsContains u.Host ":" = false → u.Scheme ≠ "https" →
      sendHost u = u.Host ++ ":" ∧ connectHost u = u.Host ++ ":80" ∧
        sendHost u ≠ connectHost u) ∧
    (∀ u : URL, stringsContains u.Host ":" = true ∨ u.Scheme = "https" →
      sendHost u = connectHost u) := by
  refine ⟨by decide, by decide, by decide, by decide, by decide, ?_, ?_⟩
  · intro u hc hs
    have h1 : sendHost u = u.Host ++ ":" := by
      simp [sendHost, hc, hs, port_of_no_colon u hc]
    have h2 : connectHost u = u.Host ++ ":80" := by
      simp [connectHost, hc, hs]
    refine ⟨h1, h2, ?_⟩
    rw [h1, h2]
    exact append_colon_ne u.Host
  · intro u h
    by_cases hc : stringsContains u.Host ":" = true
    · simp [sendHost, connectHost, hc]
    · have hs : u.Scheme = "https" := by
        rcases h with h | h
        · exact absurd h hc
        · exact h
      simp [sendHost, connectHost, hs]

/-! ## The request text of `/send` -/

theorem foldl_append_eq (l : List String) (init : String) :
    l.foldl (fun r x => r ++ x) init = init ++ String.join l := by
  unfold String.join
  induction l generalizing init with
  | nil => simp
  | cons a rest ih =>
    simp only [List.foldl_cons]
    rw [ih (init ++ a), ih ("" ++ a)]
    simp [String.append_assoc]

theorem foldl_headerLine (l : List (String × String)) (init : String) :
    l.foldl (fun acc kv => acc ++ (kv.1 ++ ": " ++ kv.2 ++ "\r\n")) init =
      init ++ String.join (l.map headerLine) := by
  rw [← foldl_append_eq, List.foldl_map]
  rfl

/-- The request text of `/send`, piece by piece. -/
theorem buildRequest_eq (method : String) (parsedURL : URL) (headers : List (String × String))
    (bodyBytes : String) :
    buildRequest method parsedURL headers bodyBytes =
      requestHead method parsedURL bodyBytes ++ String.join (headers.map headerLine) ++
        "\r\n" ++ bodyBytes := by
  unfold buildRequest
  simp only
  rw [foldl_headerLine]
  simp only [requestHead, String.append_assoc]

/-- Every `Write` a dispatch makes carries the request text. -/
theorem run_written (io : Nat → Conn → String → Exchange) (httpRequest : String) (k : Nat)
    (sched : List Event) :
    ∀ (d : Dispatch) (e : Conn × String),
      e ∈ (Dispatch.run io httpRequest k d sched).written →
        e ∈ d.written ∨ e.2 = httpRequest := by
  induction sched with
  | nil =>
    intro d e he
    exact Or.inl he
  | cons ev rest ih =>
    intro d e he
    simp only [Dispatch.run, List.foldl_cons] at he
    rcases ih _ e he with h1 | h1
    · cases ev with
      | select i =>
        simp only [Dispatch.step] at h1
        split at h1
        · exact Or.inl h1
        · split at h1
          · exact Or.inl h1
          · exact Or.inl h1
      | finish i =>
        simp only [Dispatch.step] at h1
        split at h1
        · exact Or.inl h1
        · split at h1
          · exact Or.inl h1
          · split at h1
            · simp only [List.mem_append, List.mem_singleton] at h1
              rcases h1 with h1 | h1
              · exact Or.inl h1
              · right; rw [h1]
            · simp only [List.mem_append, List.mem_singleton] at h1
              rcases h1 with h1 | h1
              · exact Or.inl h1
              · right; rw [h1]
    · exact Or.inr h1

/-- C13 as stated fails: for the target `http://127.0.0.1:9999/echo?x=1` the
request `/send` writes has the request line `POST /echo HTTP/1.1`, without the
query, and a `Content-Type` line between `Host` and `Content-Length`; it is
not the text the claim describes. -/
theorem C13_request_text_differs_from_spec :
    (HTTPRequestHandler libWithQuery ioEcho Except.ok worldWithPool sendWithHeaders
        [Event.select 0, Event.finish 0]).1.written =
      [(⟨1⟩, "POST /echo HTTP/1.1\r\nHost: 127.0.0.1:9999\r\n" ++
        "Content-Type: application/json\r\nContent-Length: 2\r\n" ++
        "X-A: 1\r\nX-B: 2\r\n\r\n{}")] ∧
    specBuildRequest "POST" "127.0.0.1:9999" "/echo" "x=1" [("X-A", "1"), ("X-B", "2")] "{}" =
      "POST /echo?x=1 HTTP/1.1\r\nHost: 127.0.0.1:9999\r\nContent-Length: 2\r\n" ++
        "X-A: 1\r\nX-B: 2\r\n\r\n{}" ∧
    buildRequest "POST" ⟨"http", "127.0.0.1:9999", "/echo", "x=1"⟩
        [("X-A", "1"), ("X-B", "2")] "{}" ≠
      specBuildRequest "POST" "127.0.0.1:9999" "/echo" "x=1" [("X-A", "1"), ("X-B", "2")]
        "{}" := by
  refine ⟨by decide, by decide, by decide⟩

/-- C14 as stated fails: two runs of `/send` on the same request in the same
process state, which differ only in the order in which `range` visits the two
entries of the header map, write different request bytes. -/
theorem C14_header_order_not_determined :
    libReversedRange.urlParse = libWithQuery.urlParse ∧
    libReversedRange.dialError = libWithQuery.dialError ∧
    (∀ l : List (String × String), (libReversedRange.mapRange l).Perm (libWithQuery.mapRange l)) ∧
    (HTTPRequestHandler libWithQuery ioEcho Except.ok worldWithPool sendWithHeaders
        [Event.select 0, Event.finish 0]).1.written =
      [(⟨1⟩, "POST /echo HTTP/1.1\r\nHost: 127.0.0.1:9999\r\n" ++
        "Content-Type: application/json\r\nContent-Length: 2\r\n" ++
        "X-A: 1\r\nX-B: 2\r\n\r\n{}")] ∧
    (HTTPRequestHandler libReversedRange ioEcho Except.ok worldWithPool sendWithHeaders
        [Event.select 0, Event.finish 0]).1.written =
      [(⟨1⟩, "POST /echo HTTP/1.1\r\nHost: 127.0.0.1:9999\r\n" ++
        "Content-Type: application/json\r\nContent-Length: 2\r\n" ++
        "X-B: 2\r\nX-A: 1\r\n\r\n{}")] ∧
    (HTTPRequestHandler libWithQuery ioEcho Except.ok worldWithPool sendWithHeaders
        [Event.select 0, Event.finish 0]).1.written ≠
      (HTTPRequestHandler libReversedRange ioEcho Except.ok worldWithPool sendWithHeaders
        [Event.select 0, Event.finish 0]).1.written := by
  refine ⟨rfl, rfl, fun l => List.reverse_perm l, by decide, by decide, by decide⟩

/-- C14, amended: the request text of `/send` is determined by the method,
the parsed target, the serialised body and the order in which the header map
is ranged over.  Two builds from equal method, target, header map and body
(`l1` and `l2` the two orders of its entries) have the same lines before the
header lines, the same blank line and body after them, and the same header
lines up to their order; they are byte-for-byte identical when the two orders
agree, in particular when the map has at most one entry. -/
theorem C14_request_text_up_to_header_order (method : String) (parsedURL : URL)
    (l1 l2 : List (String × String)) (bodyBytes : String) (hperm : l1.Perm l2) :
    buildRequest method parsedURL l1 bodyBytes =
      requestHead method parsedURL bodyBytes ++ String.join (l1.map headerLine) ++
        "\r\n" ++ bodyBytes ∧
    buildRequest method parsedURL l2 bodyBytes =
      requestHead method parsedURL bodyBytes ++ String.join (l2.map headerLine) ++
        "\r\n" ++ bodyBytes ∧
    (l1.map headerLine).Perm (l2.map headerLine) ∧
    (l1 = l2 → buildRequest method parsedURL l1 bodyBytes =
      buildRequest method parsedURL l2 bodyBytes) ∧
    (l1.length ≤ 1 → buildRequest method parsedURL l1 bodyBytes =
      buildRequest method parsedURL l2 bodyBytes) := by
  refine ⟨buildRequest_eq _ _ _ _, buildRequest_eq _ _ _ _, hperm.map _, ?_, ?_⟩
  · intro h
    rw [h]
  · intro hlen
    have h12 : l1 = l2 := by
      match l1, hperm, hlen with
      | [], hp, _ => exact (List.Perm.nil_eq hp)
      | [a], hp, _ => exact List.singleton_perm.1 hp
      | _ :: _ :: _, _, hl => simp at hl
    rw [h12]

/-- C14 (amended) on a header map of two entries ranged over in both orders. -/
theorem C14_request_text_up_to_header_order_witness :
    ([("X-A", "1"), ("X-B", "2")] : List (String × String)).Perm
      [("X-B", "2"), ("X-A", "1")] ∧
    (([("X-A", "1"), ("X-B", "2")] : List (String × String)).map headerLine).Perm
      (([("X-B", "2"), ("X-A", "1")] : List (String × String)).map headerLine) :=
  ⟨List.Perm.swap _ _ _,
    (C14_request_text_up_to_header_order "POST" ⟨"http", "127.0.0.1:9999", "/echo", "x=1"⟩
      [("X-A", "1"), ("X-B", "2")] [("X-B", "2"), ("X-A", "1")] "{}"
      (List.Perm.swap _ _ _)).2.2.1⟩

end Nethttp

namespace Fashttp

/-! ## The request text -/

/-- C12: for every method, host, path, params and body (any byte sequences),
`assembleHTTPRequest` returns exactly the request line `method path?params
HTTP/1.1`, the `Host` line, the `Content-Length` line with the decimal byte
length of the body, a blank line and then the body; the body is the suffix of
the result, byte for byte, and the part before it does not depend on the
content of the body beyond its length. -/
theorem C12_assemble_request_text (method host path params body : Bytes) :
    assembleHTTPRequest method host path params body =
      method ++ bytesOf " " ++ path ++ bytesOf "?" ++ params ++ bytesOf " HTTP/1.1\r\n" ++
        bytesOf "Host: " ++ host ++ bytesOf "\r\n" ++
        bytesOf "Content-Length: " ++ bytesOf (toString body.length) ++ bytesOf "\r\n\r\n" ++
        body ∧
    body <:+ assembleHTTPRequest method host path params body ∧
    (assembleHTTPRequest method host path params body).drop
        ((assembleHTTPRequest method host path params body).length - body.length) = body ∧
    (∀ other : Bytes, other.length = body.length →
      (assembleHTTPRequest method host path params other).take
          ((assembleHTTPRequest method host path params other).length - other.length) =
        (assembleHTTPRequest method host path params body).take
          ((assembleHTTPRequest method host path params body).length - body.length)) := by
  have hsplit : bytesOf "\r\nContent-Length: " = bytesOf "\r\n" ++ bytesOf "Content-Length: " := by
    decide
  have hfmt : formatInt (body.length : Int) = bytesOf (toString body.length) := rfl
  have heq : ∀ b : Bytes, assembleHTTPRequest method host path params b =
      (method ++ bytesOf " " ++ path ++ bytesOf "?" ++ params ++ bytesOf " HTTP/1.1\r\n" ++
        bytesOf "Host: " ++ host ++ bytesOf "\r\n" ++
        bytesOf "Content-Length: " ++ bytesOf (toString b.length) ++ bytesOf "\r\n\r\n") ++
        b := by
    intro b
    have hfmt1 : formatInt (b.length : Int) = bytesOf (toString b.length) := rfl
    simp only [assembleHTTPRequest, hsplit, hfmt1, List.append_assoc]
  refine ⟨heq body, ?_, ?_, ?_⟩
  · rw [heq body]
    exact List.suffix_append _ _
  · rw [heq body, List.length_append, Nat.add_sub_cancel, List.drop_left]
  · intro other hlen
    rw [heq body, heq other, List.length_append, Nat.add_sub_cancel, List.take_left,
      List.length_append, Nat.add_sub_cancel, List.take_left, hlen]

/-! ## The response reader -/

theorem readLoop_blocks (reads : List ReadResult) (h : ∀ r ∈ reads, r.err = none) :
    ∀ buf : Bytes, readLoop reads buf = Blocking.blocked := by
  induction reads with
  | nil =>
    intro buf
    rfl
  | cons r rest ih =>
    intro buf
    have hr : r.err = none := h r (List.mem_cons_self _ _)
    simp only [readLoop, hr]
    exact ih (fun x hx => h x (List.mem_cons_of_mem _ hx)) _

/-- C18 fails on the code of `readFullResponse`: on a connection that
delivers one complete response with `Content-Length: 2` and then stays open,
the reader does not return (it waits for `io.EOF`), and so neither does
`handleSendRequest`; once the peer closes the connection after the same bytes
the reader returns the response.  On every stream without error and without
end-of-stream the reader is blocked whatever it has buffered. -/
theorem C18_reader_waits_for_close :
    readFullResponse netKeepAlive.readResponse keepAliveReads = Blocking.blocked ∧
    readFullResponse netKeepAlive.readResponse closedReads =
      Blocking.returned (Except.ok (bytesOf "ok")) ∧
    (handleSendRequest netKeepAlive sampleConnections "POST"
        "http://127.0.0.1:9999/echo?x=1" (bytesOf "{}")).2 = Blocking.blocked ∧
    (handleSendRequest netClosing sampleConnections "POST"
        "http://127.0.0.1:9999/echo?x=1" (bytesOf "{}")).2 =
      Blocking.returned (Reply.ok (bytesOf "ok")) ∧
    (∀ (reads : List ReadResult) (readResponse : Bytes → Except String Bytes),
      (∀ r ∈ reads, r.err = none) → readFullResponse readResponse reads = Blocking.blocked) := by
  refine ⟨rfl, rfl, by decide, by decide, ?_⟩
  intro reads readResponse h
  simp only [readFullResponse, readLoop_blocks reads h]

end Fashttp

namespace ForwardProxy

open GoHTTP

/-! ## The CONNECT handshake -/

/-- C16: once `handleHTTPS` has taken over the client connection, a failed
dial of the target is followed by the `Close` of the client connection and
nothing else (no `Write` on any connection, no copy task); a successful dial
is followed by one `Write` to the client of exactly
`HTTP/1.1 200 Connection Established` and a blank line, then by the start of
the copy task client to target and of the copy task target to client, and
that `Write` is the only one of the call. -/
theorem C16_connect_handshake (dialError : String → Option String) (host : String) :
    (∀ err, dialError host = some err →
      afterHijack (handleHTTPS true none dialError host) =
        [Effect.dial host, Effect.close Endpoint.client] ∧
      (∀ e bytes, Effect.write e bytes ∉ handleHTTPS true none dialError host) ∧
      (∀ d src, Effect.goTransfer d src ∉ handleHTTPS true none dialError host)) ∧
    (dialError host = none →
      afterHijack (handleHTTPS true none dialError host) =
        [Effect.dial host,
          Effect.write Endpoint.client "HTTP/1.1 200 Connection Established\r\n\r\n",
          Effect.goTransfer Endpoint.target Endpoint.client,
          Effect.goTransfer Endpoint.client Endpoint.target] ∧
      (handleHTTPS true none dialError host).filter
          (fun e => match e with
            | Effect.write _ _ => true
            | _ => false) =
        [Effect.write Endpoint.client "HTTP/1.1 200 Connection Established\r\n\r\n"] ∧
      (∀ e, Effect.close e ∉ handleHTTPS true none dialError host)) := by
  refine ⟨?_, ?_⟩
  · intro err herr
    have ht : handleHTTPS true none dialError host =
        [Effect.hijack, Effect.dial host, Effect.close Endpoint.client] := by
      simp [handleHTTPS, herr]
    rw [ht]
    refine ⟨by simp [afterHijack, List.dropWhile], ?_, ?_⟩
    · intro e bytes hmem
      simp at hmem
    · intro d src hmem
      simp at hmem
  · intro hok
    have ht : handleHTTPS true none dialError host =
        [Effect.hijack, Effect.dial host,
          Effect.write Endpoint.client "HTTP/1.1 200 Connection Established\r\n\r\n",
          Effect.goTransfer Endpoint.target Endpoint.client,
          Effect.goTransfer Endpoint.client Endpoint.target] := by
      simp [handleHTTPS, hok]
    rw [ht]
    refine ⟨by simp [afterHijack, List.dropWhile], by simp [List.filter], ?_⟩
    intro e hmem
    simp at hmem

/-! ## The header copy -/

theorem lookup_none_of_not_mem (src : List (String × List String)) (key : String)
    (h : key ∉ src.map Prod.fst) : src.lookup key = none := by
  induction src with
  | nil => rfl
  | cons kv rest ih =>
    obtain ⟨k, vs⟩ := kv
    simp only [List.map_cons, List.mem_cons, not_or] at h
    have hne : (key == k) = false := by simpa using h.1
    rw [List.lookup_cons, hne]
    exact ih h.2

/-- The values under each key after all the values of one entry were added. -/
theorem values_addAll (dst : Header) (k : String) (vs : List String) (key : String) :
    Header.values (vs.foldl (fun acc1 value => Header.Add acc1 k value) dst) key =
      if key = CanonicalMIMEHeaderKey k then Header.values dst key ++ vs
      else Header.values dst key := by
  induction vs generalizing dst with
  | nil =>
    by_cases hk : key = CanonicalMIMEHeaderKey k <;> simp [hk]
  | cons v rest ih =>
    rw [List.foldl_cons, ih]
    by_cases hk : key = CanonicalMIMEHeaderKey k
    · subst hk
      simp [Header.values, Header.Add]
    · simp [hk, Header.values, Header.Add, Function.update_noteq hk]

/-- The values under each key after the copy of a header map whose keys are
in canonical form. -/
theorem values_copyHeader (src : List (String × List String))
    (hkeys : (src.map Prod.fst).Nodup)
    (hcanon : ∀ kv ∈ src, CanonicalMIMEHeaderKey kv.1 = kv.1) :
    ∀ (dst : Header) (key : String),
      Header.values (copyHeader dst src) key =
        Header.values dst key ++ (src.lookup key).getD [] := by
  induction src with
  | nil =>
    intro dst key
    simp [copyHeader]
  | cons kv rest ih =>
    intro dst key
    obtain ⟨k, vs⟩ := kv
    have hk : CanonicalMIMEHeaderKey k = k := hcanon (k, vs) (List.mem_cons_self _ _)
    simp only [List.map_cons, List.nodup_cons] at hkeys
    have ih1 := ih hkeys.2 (fun x hx => hcanon x (List.mem_cons_of_mem _ hx))
    have hstep : copyHeader dst ((k, vs) :: rest) =
        copyHeader (vs.foldl (fun acc1 value => Header.Add acc1 k value) dst) rest := by
      simp [copyHeader]
    rw [hstep, ih1, values_addAll, hk, List.lookup_cons]
    by_cases hkey : key = k
    · subst hkey
      simp [lookup_none_of_not_mem rest key hkeys.1]
    · have hne : (key == k) = false := by simpa using hkey
      simp [hkey, hne]

theorem lookup_of_mem (src : List (String × List String)) (hkeys : (src.map Prod.fst).Nodup)
    (key : String) (vs : List String) (h : (key, vs) ∈ src) : src.lookup key = some vs := by
  induction src with
  | nil => cases h
  | cons kv rest ih =>
    obtain ⟨k, ws⟩ := kv
    simp only [List.map_cons, List.nodup_cons] at hkeys
    rw [List.lookup_cons]
    rcases List.mem_cons.1 h with heq | hmem
    · cases heq
      simp
    · have hne : key ≠ k := by
        intro hk
        subst hk
        exact hkeys.1 (List.mem_map.2 ⟨(key, vs), hmem, rfl⟩)
      have hb : (key == k) = false := by simpa using hne
      rw [hb]
      exact ih hkeys.2 hmem

/-- C17: the header copy of `handleHTTP` into a header map without entries,
from a header map whose keys are in canonical form (as the keys of every
header map parsed by `net/http` are), leaves under every key exactly the list
of values the source has under it, in the same order and with the same
multiplicity, and nothing under any other key, in whatever order the entries
of the source are visited.  This holds for the outbound request handed to the
client and for the response written back. -/
theorem C17_header_copy_preserves_values (src : List (String × List String))
    (hkeys : (src.map Prod.fst).Nodup)
    (hcanon : ∀ kv ∈ src, CanonicalMIMEHeaderKey kv.1 = kv.1) :
    (∀ key, Header.values (copyHeader Header.empty src) key = (src.lookup key).getD []) ∧
    (∀ key vs, (key, vs) ∈ src → Header.values (copyHeader Header.empty src) key = vs) ∧
    (∀ key, key ∉ src.map Prod.fst → Header.values (copyHeader Header.empty src) key = []) ∧
    (∀ visited : List (String × List String), visited.Perm src →
      ∀ key, Header.values (copyHeader Header.empty visited) key =
        Header.values (copyHeader Header.empty src) key) ∧
    (∀ (clientDo : OutRequest → Except String UpstreamResponse) (r : InRequest),
      r.Header = src →
      ∃ req, (handleHTTP none clientDo r).1 = some req ∧
        ∀ key, Header.values req.Header key = (src.lookup key).getD []) ∧
    (∀ (clientDo : OutRequest → Except String UpstreamResponse) (r : InRequest)
      (resp : UpstreamResponse),
      clientDo ⟨r.Method, r.URL, copyHeader Header.empty r.Header, r.Body⟩ = Except.ok resp →
      resp.Header = src →
      ∃ h, (handleHTTP none clientDo r).2 = Reply.relayed resp.StatusCode h resp.Body ∧
        ∀ key, Header.values h key = (src.lookup key).getD []) := by
  have hmain : ∀ (l : List (String × List String)), (l.map Prod.fst).Nodup →
      (∀ kv ∈ l, CanonicalMIMEHeaderKey kv.1 = kv.1) →
      ∀ key, Header.values (copyHeader Header.empty l) key = (l.lookup key).getD [] := by
    intro l hl hc key
    rw [values_copyHeader l hl hc]
    simp [Header.values, Header.empty]
  have hmem : ∀ (l : List (String × List String)), (l.map Prod.fst).Nodup →
      (∀ kv ∈ l, CanonicalMIMEHeaderKey kv.1 = kv.1) →
      ∀ key vs, (key, vs) ∈ l → Header.values (copyHeader Header.empty l) key = vs := by
    intro l hl hc key vs h
    rw [hmain l hl hc, lookup_of_mem l hl key vs h]
    rfl
  have habs : ∀ (l : List (String × List String)), (l.map Prod.fst).Nodup →
      (∀ kv ∈ l, CanonicalMIMEHeaderKey kv.1 = kv.1) →
      ∀ key, key ∉ l.map Prod.fst → Header.values (copyHeader Header.empty l) key = [] := by
    intro l hl hc key h
    rw [hmain l hl hc, lookup_none_of_not_mem l key h]
    rfl
  refine ⟨hmain src hkeys hcanon, hmem src hkeys hcanon, habs src hkeys hcanon, ?_, ?_, ?_⟩
  · intro visited hperm key
    have hvk : (visited.map Prod.fst).Nodup := (hperm.map Prod.fst).nodup_iff.2 hkeys
    have hvc : ∀ kv ∈ visited, CanonicalMIMEHeaderKey kv.1 = kv.1 :=
      fun kv hkv => hcanon kv (hperm.mem_iff.1 hkv)
    by_cases hk : key ∈ src.map Prod.fst
    · obtain ⟨kv, hkv, hfst⟩ := List.mem_map.1 hk
      obtain ⟨k, vs⟩ := kv
      simp only at hfst
      subst hfst
      rw [hmem src hkeys hcanon k vs hkv, hmem visited hvk hvc k vs (hperm.mem_iff.2 hkv)]
    · have hk1 : key ∉ visited.map Prod.fst := fun hm => hk ((hperm.map Prod.fst).mem_iff.1 hm)
      rw [habs src hkeys hcanon key hk, habs visited hvk hvc key hk1]
  · intro clientDo r hr
    subst hr
    cases hdo : clientDo ⟨r.Method, r.URL, copyHeader Header.empty r.Header, r.Body⟩ with
    | error err =>
      exact ⟨⟨r.Method, r.URL, copyHeader Header.empty r.Header, r.Body⟩,
        by simp [handleHTTP, hdo], hmain r.Header hkeys hcanon⟩
    | ok resp =>
      exact ⟨⟨r.Method, r.URL, copyHeader Header.empty r.Header, r.Body⟩,
        by simp [handleHTTP, hdo], hmain r.Header hkeys hcanon⟩
  · intro clientDo r resp hdo hr
    subst hr
    exact ⟨copyHeader Header.empty resp.Header, by simp [handleHTTP, hdo],
      hmain resp.Header hkeys hcanon⟩

/-- C17 on a header map with a repeated `Set-Cookie`: both values arrive, in
order. -/
theorem C17_header_copy_preserves_values_witness :
    Header.values
        (copyHeader Header.empty [("Set-Cookie", ["a=1", "b=2"]), ("Accept", ["*/*"])])
        "Set-Cookie" = ["a=1", "b=2"] :=
  (C17_header_copy_preserves_values [("Set-Cookie", ["a=1", "b=2"]), ("Accept", ["*/*"])]
    (by decide) (by decide)).2.1 "Set-Cookie" ["a=1", "b=2"] (by decide)

end ForwardProxy

namespace HttpProxy

open GoHTTP

/-! ## The `Content-Encoding` header of the relayed response -/

theorem relayHeader_fold_none (src : List (String × List String)) :
    ∀ acc : Header, acc "Content-Encoding" = none →
      (src.foldl
        (fun (acc : Header) (kv : String × List String) =>
          if kv.1 ≠ "Content-Encoding" then Function.update acc kv.1 (some kv.2) else acc)
        acc) "Content-Encoding" = none := by
  induction src with
  | nil =>
    intro acc h
    exact h
  | cons kv rest ih =>
    intro acc h
    rw [List.foldl_cons]
    apply ih
    by_cases hk : kv.1 ≠ "Content-Encoding"
    · rw [if_pos hk, Function.update_noteq (Ne.symm hk)]
      exact h
    · rw [if_neg hk]
      exact h

/-- C15 fails on the code: the relay drops the `Content-Encoding` header of
every upstream response, also when it forwards the body as received.  For a
response with `Content-Encoding: br` the body is forwarded unchanged and not
decoded, and the reply has no `Content-Encoding` header.  For
`Content-Encoding: gzip` with a body the gzip reader rejects, the relay sends
on, undecoded, what the reader's attempt left of the body (nothing, for the
four-byte body here), again without the header.  When the gzip reader accepts
the body the decoded body is sent without the header, as the claim says. -/
theorem C15_content_encoding_always_dropped :
    (∀ gunzip, decodedByRelay gunzip brotliResponse = false) ∧
    (∀ gunzip, relayBody gunzip brotliResponse = brotliResponse.Body) ∧
    relayHeader brotliResponse.Header "Content-Encoding" = none ∧
    relayHeader brotliResponse.Header "Content-Type" = some ["text/plain"] ∧
    (∀ gunzip, handleRequestAndRedirect none (Except.ok brotliResponse) gunzip =
      Reply.relayed 200 (relayHeader brotliResponse.Header) brotliResponse.Body) ∧
    decodedByRelay (fun _ => GzipResult.badHeader []) gzipResponse = false ∧
    relayBody (fun _ => GzipResult.badHeader []) gzipResponse = [] ∧
    relayHeader gzipResponse.Header "Content-Encoding" = none ∧
    (∀ src : List (String × List String), relayHeader src "Content-Encoding" = none) ∧
    (∀ (gunzip : List UInt8 → GzipResult) (resp : UpstreamResponse) (out : List UInt8),
      Header.Get (Header.ofEntries resp.Header) "Content-Encoding" = "gzip" →
      gunzip resp.Body = GzipResult.decoded out →
      decodedByRelay gunzip resp = true ∧ relayBody gunzip resp = out ∧
        relayHeader resp.Header "Content-Encoding" = none) := by
  have hall : ∀ src : List (String × List String), relayHeader src "Content-Encoding" = none :=
    fun src => relayHeader_fold_none src Header.empty rfl
  have hget : Header.Get (Header.ofEntries brotliResponse.Header) "Content-Encoding" = "br" := by
    decide
  have hne : ("br" : String) ≠ "gzip" := by decide
  have hbody : ∀ gunzip, relayBody gunzip brotliResponse = brotliResponse.Body := by
    intro gunzip
    simp only [relayBody, hget, hne, if_false]
  refine ⟨?_, hbody, hall _, by decide, ?_, by decide, by decide, hall _, hall, ?_⟩
  · intro gunzip
    simp only [decodedByRelay, hget, hne, if_false]
  · intro gunzip
    simp only [handleRequestAndRedirect, hbody]
    rfl
  · intro gunzip resp out hgz hdec
    refine ⟨?_, ?_, hall _⟩
    · simp only [decodedByRelay, hgz, hdec, if_true]
    · simp only [relayBody, hgz, hdec, if_true]

end HttpProxy

namespace ReverseProxy

open GoHTTP

/-! ## The `X-Proxy-Server` header -/

/-- What is stored under a key after a run of `Header.Del`. -/
theorem foldl_Del (keys : List String) :
    ∀ (h : Header) (k : String),
      (keys.foldl Header.Del h) k =
        if k ∈ keys.map CanonicalMIMEHeaderKey then none else h k := by
  induction keys with
  | nil =>
    intro h k
    simp
  | cons a rest ih =>
    intro h k
    rw [List.foldl_cons, ih]
    by_cases hr : k ∈ rest.map CanonicalMIMEHeaderKey
    · simp [hr]
    · by_cases ha : k = CanonicalMIMEHeaderKey a
      · subst ha
        simp [hr, Header.Del]
      · simp [hr, ha, Header.Del, Function.update_noteq ha]

theorem canonical_proxy_header : CanonicalMIMEHeaderKey "X-Proxy-Server" = "X-Proxy-Server" := by
  decide

theorem proxy_header_not_hop :
    "X-Proxy-Server" ∉ hopHeaders.map CanonicalMIMEHeaderKey := by
  decide

theorem director_header {α : Type} (originalDirector : Request α → Request α)
    (req : Request α) :
    (director originalDirector req).Header "X-Proxy-Server" = some ["Go-Proxy"] ∧
    (director originalDirector req).rest = (originalDirector req).rest ∧
    (∀ k, k ≠ "X-Proxy-Server" →
      (director originalDirector req).Header k = (originalDirector req).Header k) := by
  refine ⟨?_, rfl, ?_⟩
  · simp [director, Header.Set, canonical_proxy_header]
  · intro k hk
    simp [director, Header.Set, canonical_proxy_header, Function.update_noteq hk]

theorem director_connectionTokens {α : Type} (originalDirector : Request α → Request α)
    (req : Request α) :
    connectionTokens (director originalDirector req).Header =
      connectionTokens (originalDirector req).Header := by
  have hne : ("Connection" : String) ≠ "X-Proxy-Server" := by decide
  unfold connectionTokens Header.values
  rw [(director_header originalDirector req).2.2 "Connection" hne]

/-- The header `X-Proxy-Server` at the backend: absent when the `Connection`
header of the request names it, the single value `Go-Proxy` otherwise. -/
theorem backendHeader_proxy {α : Type} (originalDirector : Request α → Request α)
    (req : Request α) :
    backendHeader originalDirector req "X-Proxy-Server" =
      if "X-Proxy-Server" ∈
          (connectionTokens (originalDirector req).Header).map CanonicalMIMEHeaderKey
      then none else some ["Go-Proxy"] := by
  unfold backendHeader removeHopByHopHeaders
  rw [foldl_Del, if_neg proxy_header_not_hop, foldl_Del, director_connectionTokens,
    (director_header originalDirector req).1]

/-- C19 fails on the code for a request whose `Connection` header names
`X-Proxy-Server`: the `Director` of `NewProxyServer` sets the header to the
single value `Go-Proxy` (overwriting what the client sent and keeping every
other effect of the original director), but `ReverseProxy.ServeHTTP` removes
the headers named in `Connection` after the `Director` has returned, so the
backend receives no `X-Proxy-Server` header.  For every request whose
`Connection` header does not name it the backend receives exactly
`Go-Proxy`. -/
theorem C19_proxy_header_removed_after_director :
    (director id strippingRequest).Header "X-Proxy-Server" = some ["Go-Proxy"] ∧
    connectionTokens strippingRequest.Header = ["X-Proxy-Server"] ∧
    backendHeader id strippingRequest "X-Proxy-Server" = none ∧
    backendHeader id strippingRequest "Accept" = some ["*/*"] ∧
    backendHeader id plainRequest "X-Proxy-Server" = some ["Go-Proxy"] ∧
    (∀ (α : Type) (originalDirector : Request α → Request α) (req : Request α),
      (director originalDirector req).Header "X-Proxy-Server" = some ["Go-Proxy"] ∧
      (director originalDirector req).rest = (originalDirector req).rest ∧
      (∀ k, k ≠ "X-Proxy-Server" →
        (director originalDirector req).Header k = (originalDirector req).Header k)) ∧
    (∀ (α : Type) (originalDirector : Request α → Request α) (req : Request α),
      "X-Proxy-Server" ∈
          (connectionTokens (originalDirector req).Header).map CanonicalMIMEHeaderKey →
        backendHeader originalDirector req "X-Proxy-Server" = none) ∧
    (∀ (α : Type) (originalDirector : Request α → Request α) (req : Request α),
      "X-Proxy-Server" ∉
          (connectionTokens (originalDirector req).Header).map CanonicalMIMEHeaderKey →
        backendHeader originalDirector req "X-Proxy-Server" = some ["Go-Proxy"]) := by
  refine ⟨by decide, by decide, by decide, by decide, by decide, ?_, ?_, ?_⟩
  · intro α originalDirector req
    exact director_header originalDirector req
  · intro α originalDirector req h
    rw [backendHeader_proxy, if_pos h]
  · intro α originalDirector req h
    rw [backendHeader_proxy, if_neg h]

end ReverseProxy

namespace Fashttp

/-- C12 on the request of `POST /echo?x=1` with the body `{}`. -/
theorem C12_assemble_request_text_witness :
    assembleHTTPRequest (bytesOf "POST") (bytesOf "127.0.0.1:9999") (bytesOf "/echo")
        (bytesOf "x=1") (bytesOf "{}") =
      bytesOf ("POST /echo?x=1 HTTP/1.1\r\nHost: 127.0.0.1:9999\r\n" ++
        "Content-Length: 2\r\n\r\n{}") :=
  (C12_assemble_request_text (bytesOf "POST") (bytesOf "127.0.0.1:9999") (bytesOf "/echo")
    (bytesOf "x=1") (bytesOf "{}")).1.trans (by decide)

end Fashttp

namespace ForwardProxy

/-- C16 on a target that refuses the connection and on one that accepts it. -/
theorem C16_connect_handshake_witness :
    handleHTTPS true none (fun _ => some "connection refused") "example.com:443" =
      [Effect.hijack, Effect.dial "example.com:443", Effect.close Endpoint.client] ∧
    afterHijack (handleHTTPS true none (fun _ => none) "example.com:443") =
      [Effect.dial "example.com:443",
        Effect.write Endpoint.client "HTTP/1.1 200 Connection Established\r\n\r\n",
        Effect.goTransfer Endpoint.target Endpoint.client,
        Effect.goTransfer Endpoint.client Endpoint.target] :=
  ⟨by decide, ((C16_connect_handshake (fun _ => none) "example.com:443").2 rfl).1⟩

end ForwardProxy

namespace Fashttp

/-- The text `assembleHTTPRequest` builds, piece by piece. -/
theorem assembleHTTPRequest_pieces (method host path params body : Bytes) :
    assembleHTTPRequest method host path params body =
      method ++ bytesOf " " ++ path ++ (bytesOf "?" ++ params) ++ bytesOf " HTTP/1.1\r\n" ++
        bytesOf "Host: " ++ host ++ bytesOf "\r\n" ++
        bytesOf "Content-Length: " ++ bytesOf (toString body.length) ++ bytesOf "\r\n\r\n" ++
        body := by
  have hsplit : bytesOf "\r\nContent-Length: " = bytesOf "\r\n" ++ bytesOf "Content-Length: " := by
    decide
  have hfmt : formatInt (body.length : Int) = bytesOf (toString body.length) := rfl
  simp only [assembleHTTPRequest, hsplit, hfmt, List.append_assoc]

/-- The one `Write` of `handleSendRequest` once it has found its connection. -/
theorem handleSendRequest_written {ρ : Type} (net : Net ρ)
    (connections : String → Option Nethttp.Conn) (targetURL : String) (requestData : Bytes)
    (u : Nethttp.URL) (conn : Nethttp.Conn) (hu : net.urlParse targetURL = Except.ok u)
    (hconn : connections (parseURLStr u).1 = some conn) :
    (handleSendRequest net connections "POST" targetURL requestData).1 =
      [(conn, assembleHTTPRequest (bytesOf "POST") (bytesOf (parseURLStr u).1)
        (bytesOf (parseURLStr u).2.1) (bytesOf "") requestData)] := by
  unfold handleSendRequest
  simp only [ne_eq, not_true_eq_false, if_false, hu, hconn]
  split
  · rfl
  · split
    · rfl
    · rfl
    · split
      · rfl
      · rfl

end Fashttp

namespace Nethttp

/-- C13, amended: the raw request a `/send` handler writes to the pooled
connection consists of, in this order, a request line that begins with the
method, a space and the path of the target and ends with ` HTTP/1.1`, a `Host`
line, in the handler of `GoProject_Nethttp` the line
`Content-Type: application/json`, a `Content-Length` line with the byte length
of the body, the lines of the caller-supplied headers (the handler of
`GoProject_Fashttp` takes none), a blank line and the body.  For
`GoProject_Nethttp` the method is the one of the request (`POST` when none is
given), the body is the serialised JSON body and every `Write` of the call
carries this text; for `GoProject_Fashttp` the method is `POST` and the body
is the request body as received.  What stands between the path and
` HTTP/1.1` is left open. -/
theorem C13_send_request_text {β : Type} (lib : Lib) (io : Nat → Conn → String → Exchange)
    (marshal : β → Except String String) (w : World) (r : Request (SendRequest β))
    (req : SendRequest β) (parsedURL : URL) (hostConns : HostConnections) (bodyBytes : String)
    (sched : List Event)
    (h : ReachesDispatch lib marshal w r req parsedURL hostConns bodyBytes) :
    (∃ mid : String,
      buildRequest req.Method parsedURL (lib.mapRange req.Headers) bodyBytes =
        (if req.Method = "" then "POST" else req.Method) ++ " " ++ parsedURL.Path ++ mid ++
          " HTTP/1.1\r\n" ++
          "Host: " ++ parsedURL.Host ++ "\r\n" ++
          "Content-Type: application/json\r\n" ++
          "Content-Length: " ++ toString bodyBytes.utf8ByteSize ++ "\r\n" ++
          String.join ((lib.mapRange req.Headers).map headerLine) ++ "\r\n" ++ bodyBytes) ∧
    (∀ e : Conn × String, e ∈ (HTTPRequestHandler lib io marshal w r sched).1.written →
      e ∈ w.written ∨
        e.2 = buildRequest req.Method parsedURL (lib.mapRange req.Headers) bodyBytes) ∧
    (∀ (ρ : Type) (net : Fashttp.Net ρ) (connections : String → Option Conn)
      (targetURL : String) (requestData : Fashttp.Bytes) (u : URL) (conn : Conn),
      net.urlParse targetURL = Except.ok u →
      connections (Fashttp.parseURLStr u).1 = some conn →
      ∃ mid : Fashttp.Bytes,
        (Fashttp.handleSendRequest net connections "POST" targetURL requestData).1 =
          [(conn,
            Fashttp.bytesOf "POST" ++ Fashttp.bytesOf " " ++ Fashttp.bytesOf u.Path ++ mid ++
              Fashttp.bytesOf " HTTP/1.1\r\n" ++
              Fashttp.bytesOf "Host: " ++ Fashttp.bytesOf (Fashttp.parseURLStr u).1 ++
              Fashttp.bytesOf "\r\n" ++
              Fashttp.bytesOf "Content-Length: " ++
              Fashttp.bytesOf (toString requestData.length) ++
              Fashttp.bytesOf "\r\n\r\n" ++ requestData)]) := by
  refine ⟨⟨"", ?_⟩, ?_, ?_⟩
  · rw [buildRequest_eq, String.append_empty]
    rfl
  · intro e he
    rw [HTTPRequestHandler_dispatch lib io marshal w r req parsedURL hostConns bodyBytes _ h]
      at he
    simp only [List.mem_append] at he
    rcases he with he | he
    · exact Or.inl he
    · rcases run_written io _ _ sched _ e he with h1 | h1
      · simp [Dispatch.init] at h1
      · exact Or.inr h1
  · intro ρ net connections targetURL requestData u conn hu hconn
    refine ⟨Fashttp.bytesOf "?" ++ Fashttp.bytesOf "", ?_⟩
    rw [Fashttp.handleSendRequest_written net connections targetURL requestData u conn hu hconn,
      Fashttp.assembleHTTPRequest_pieces]
    rfl

/-- C13 (amended) on the request with two headers for
`http://127.0.0.1:9999/echo?x=1`. -/
theorem C13_send_request_text_witness :
    ReachesDispatch libWithQuery Except.ok worldWithPool sendWithHeaders
      ⟨"http://127.0.0.1:9999/echo?x=1", "POST", [("X-A", "1"), ("X-B", "2")], "{}", 1⟩
      ⟨"http", "127.0.0.1:9999", "/echo", "x=1"⟩ ⟨[⟨0⟩, ⟨1⟩], 0⟩ "{}" ∧
    ∀ e : Conn × String,
      e ∈ (HTTPRequestHandler libWithQuery ioEcho Except.ok worldWithPool sendWithHeaders
        [Event.select 0, Event.finish 0]).1.written →
      e ∈ worldWithPool.written ∨
        e.2 = buildRequest "POST" ⟨"http", "127.0.0.1:9999", "/echo", "x=1"⟩
          (libWithQuery.mapRange [("X-A", "1"), ("X-B", "2")]) "{}" :=
  ⟨⟨rfl, rfl, by decide, rfl, by decide, by decide, rfl⟩,
    (C13_send_request_text libWithQuery ioEcho Except.ok worldWithPool sendWithHeaders
      ⟨"http://127.0.0.1:9999/echo?x=1", "POST", [("X-A", "1"), ("X-B", "2")], "{}", 1⟩
      ⟨"http", "127.0.0.1:9999", "/echo", "x=1"⟩ ⟨[⟨0⟩, ⟨1⟩], 0⟩ "{}"
      [Event.select 0, Event.finish 0]
      ⟨rfl, rfl, by decide, rfl, by decide, by decide, rfl⟩).2.1⟩

end Nethttp
